import Mathlib

/-!
Shallow embedding of `VandenStock_DBpedia.py`, a command-line DBpedia book
lookup tool, together with proofs about the claims of its specification.

The program's observable behaviour is modelled as pure functions: network
responses are supplied by an explicit environment (`Env`), console output is
modelled as the list of printed lines where a claim needs it, and process
outcomes are values of `PyResult` (normal return, `sys.exit`, or an
unhandled exception).  Machine strings are Lean `String`s manipulated
through their `List Char` data; the Python standard-library functions used
by the source (`str.strip`, `str.casefold`, `str.replace`, `str.split`,
`int`, list indexing, `urllib.parse.quote`/`unquote`) are re-implemented
below with their documented semantics (`casefold` is modelled as ASCII
lowercasing and `str.isspace` by the ASCII whitespace set, which is all the
claims exercise; `int` is modelled on ASCII decimal literals).
-/

/-- Outcome of running a piece of the Python program: a normal value,
a `sys.exit(message)` (`SystemExit`), or an unhandled exception. -/
inductive PyResult (α : Type) where
  | ok : α → PyResult α
  | exit : String → PyResult α
  | crash : String → PyResult α
deriving DecidableEq

/-- Python whitespace characters as used by `str.isspace` / `str.strip`
(ASCII fragment of the Python whitespace set). -/
def isPySpace (c : Char) : Bool :=
  c = ' ' ∨ c = '\t' ∨ c = '\n' ∨ c = '\x0d' ∨ c = '\x0b' ∨ c = '\x0c'

/-- Model of `str.strip()` on the character list. -/
def pyStripList (cs : List Char) : List Char :=
  ((cs.dropWhile isPySpace).reverse.dropWhile isPySpace).reverse

/-- Model of `str.strip()`. -/
def pyStrip (s : String) : String :=
  (pyStripList s.data).asString

/-- Model of `str.casefold()` (ASCII lowercasing; full Unicode case folding
is not exercised by the program's claims). -/
def pyCasefold (s : String) : String :=
  (s.data.map Char.toLower).asString

/-- Model of `str.isspace()`: true iff the string is non-empty and all of
its characters are whitespace. -/
def pyStrIsSpace (s : String) : Bool :=
  !s.data.isEmpty && s.data.all isPySpace

/-- Fuel-driven core of `str.replace`: replaces every non-overlapping
occurrence of `pat` (non-empty) from the left.  The fuel is the length of
the scanned list, so the fuel never runs out on the initial call. -/
def replaceFuel (pat rep : List Char) : Nat → List Char → List Char
  | _, [] => []
  | 0, l => l
  | fuel + 1, c :: cs =>
    if pat ≠ [] ∧ pat.isPrefixOf (c :: cs) then
      rep ++ replaceFuel pat rep fuel (List.drop (pat.length - 1) cs)
    else
      c :: replaceFuel pat rep fuel cs

/-- Model of Python `str.replace(pat, rep)` (all occurrences, left to
right, non-overlapping). -/
def pyReplace (s pat rep : String) : String :=
  (replaceFuel pat.data rep.data s.data.length s.data).asString

/-- Model of `str.split(sep)` for a one-character separator: every
occurrence splits, empty segments are kept, and the result is never
empty. -/
def splitOnChar (sep : Char) : List Char → List (List Char)
  | [] => [[]]
  | c :: cs =>
    if c = sep then [] :: splitOnChar sep cs
    else
      match splitOnChar sep cs with
      | [] => [[c]]
      | g :: gs => (c :: g) :: gs

/-- The last segment of `s.split('/')`, i.e. Python `s.split('/')[-1]`
(defined because `split` always returns a non-empty list). -/
def pyLastSeg (s : String) : String :=
  ((splitOnChar '/' s.data).getLastD []).asString

/-- The label derivation used for author / publisher / genre:
`value.split('/')[-1].replace('_', ' ')`. -/
def pathLabel (s : String) : String :=
  pyReplace (pyLastSeg s) "_" " "

/-- Value of a non-empty all-digit character list. -/
def digitsVal : List Char → Nat → Option Nat
  | [], acc => some acc
  | c :: cs, acc =>
    if '0' ≤ c ∧ c ≤ '9' then digitsVal cs (acc * 10 + (c.toNat - 48))
    else none

/-- Model of Python `int(s)` on ASCII decimal literals: surrounding
whitespace and a single leading sign are allowed; anything else raises
`ValueError`, modelled as `none`. -/
def pyInt (s : String) : Option Int :=
  match pyStripList s.data with
  | '+' :: ds =>
    match ds with
    | [] => none
    | _ => (digitsVal ds 0).map Int.ofNat
  | '-' :: ds =>
    match ds with
    | [] => none
    | _ => (digitsVal ds 0).map fun n => -(n : Int)
  | [] => none
  | ds => (digitsVal ds 0).map Int.ofNat

/-- Model of Python list indexing `xs[i]`: non-negative indices from the
front, negative indices from the back, `IndexError` (modelled as `none`)
outside `-len ≤ i < len`. -/
def pyIndex {α : Type} (xs : List α) (i : Int) : Option α :=
  if 0 ≤ i then xs[i.toNat]?
  else if -(xs.length : Int) ≤ i then xs[xs.length - (-i).toNat]?
  else none

/-- Lookup in a Python dict modelled as an insertion-ordered association
list with unique keys (first match). -/
def pyDictGet {K V : Type} [DecidableEq K] : List (K × V) → K → Option V
  | [], _ => none
  | (k', v) :: rest, k => if k' = k then some v else pyDictGet rest k

/-- Model of `d[k] = v` on a Python dict: an existing key keeps its
position and gets the new value, a new key is appended. -/
def dictInsert {K V : Type} [DecidableEq K] : List (K × V) → K → V → List (K × V)
  | [], k, v => [(k, v)]
  | (k', v') :: rest, k, v =>
    if k' = k then (k', v) :: rest else (k', v') :: dictInsert rest k v

/-- Build a Python dict from a sequence of `d[k] = v` assignments. -/
def buildDict {K V : Type} [DecidableEq K] (ps : List (K × V)) : List (K × V) :=
  ps.foldl (fun d p => dictInsert d p.1 p.2) []

/-- Keys in first-occurrence order with duplicates removed (the key order
of a Python dict built by repeated assignment). -/
def firstDedupAux {K : Type} [DecidableEq K] (seen : List K) : List K → List K
  | [] => []
  | k :: ks =>
    if k ∈ seen then firstDedupAux seen ks
    else k :: firstDedupAux (k :: seen) ks

/-- Duplicate-free list of keys in first-occurrence order. -/
def firstDedup {K : Type} [DecidableEq K] (ks : List K) : List K :=
  firstDedupAux [] ks

/-- The value of the last assignment to key `k` in the sequence `ps`
(specification of last-write-wins). -/
def lastAssoc {K V : Type} [DecidableEq K] : List (K × V) → K → Option V
  | [], _ => none
  | (k', v) :: rest, k =>
    match lastAssoc rest k with
    | some w => some w
    | none => if k' = k then some v else none

/-- Characters that `urllib.parse.quote` leaves unencoded with the default
`safe='/'`: letters, digits, `_.-~` and `/` (as byte values). -/
def quoteSafe (b : Nat) : Bool :=
  decide ((45 ≤ b ∧ b ≤ 57) ∨ (65 ≤ b ∧ b ≤ 90) ∨ (97 ≤ b ∧ b ≤ 122) ∨ b = 95 ∨ b = 126)

/-- Uppercase hexadecimal digit for a value below 16. -/
def hexDigitU (n : Nat) : Char :=
  Char.ofNat (if n < 10 then 48 + n else 55 + n)

/-- UTF-8 encoding of a character, as its list of byte values. -/
def utf8EncodeChar (c : Char) : List Nat :=
  let n := c.toNat
  if n < 0x80 then [n]
  else if n < 0x800 then [0xC0 + n / 64, 0x80 + n % 64]
  else if n < 0x10000 then
    [0xE0 + n / 4096, 0x80 + (n / 64) % 64, 0x80 + n % 64]
  else
    [0xF0 + n / 262144, 0x80 + (n / 4096) % 64, 0x80 + (n / 64) % 64, 0x80 + n % 64]

/-- A byte of the UTF-8 stream after percent-encoding: safe bytes stand for
themselves, every other byte becomes `%XX` with uppercase hex digits. -/
def quoteByte (b : Nat) : List Char :=
  if quoteSafe b then [Char.ofNat b]
  else ['%', hexDigitU (b / 16), hexDigitU (b % 16)]

/-- Model of `urllib.parse.quote(s)` (default `safe='/'`): percent-encode
the UTF-8 bytes of the string. -/
def pyQuote (s : String) : String :=
  ((s.data.flatMap utf8EncodeChar).flatMap quoteByte).asString

/-- `clean` from the source: exits on an empty or all-whitespace string,
otherwise strips, casefolds and URL-encodes the input. -/
def clean (s : String) : PyResult String :=
  if 0 < s.data.length ∧ pyStrIsSpace s = false then
    .ok (pyQuote (pyCasefold (pyStrip s)))
  else
    .exit "That is an empty string... Try again."

/-- Value of a hexadecimal digit character, accepting both cases. -/
def hexVal (c : Char) : Option Nat :=
  if '0' ≤ c ∧ c ≤ '9' then some (c.toNat - 48)
  else if 'A' ≤ c ∧ c ≤ 'F' then some (c.toNat - 55)
  else if 'a' ≤ c ∧ c ≤ 'f' then some (c.toNat - 87)
  else none

/-- Token stream of `urllib.parse.unquote`: literal characters interleaved
with decoded percent-escaped bytes. -/
inductive UTok where
  | ch : Char → UTok
  | byte : Nat → UTok
deriving DecidableEq

/-- First pass of `unquote`: every `%` followed by two hex digits becomes a
byte, everything else stays a literal character. -/
def unquoteScan : List Char → List UTok
  | [] => []
  | c :: h1 :: h2 :: rest =>
    if c = '%' then
      match hexVal h1, hexVal h2 with
      | some a, some b => .byte (16 * a + b) :: unquoteScan rest
      | _, _ => .ch '%' :: unquoteScan (h1 :: h2 :: rest)
    else .ch c :: unquoteScan (h1 :: h2 :: rest)
  | c :: rest => .ch c :: unquoteScan rest

/-- The Unicode replacement character, used by `unquote`'s
`errors='replace'` handling of invalid UTF-8 (never reached on the output
of `quote`). -/
def replChar : Char := Char.ofNat 0xFFFD

/-- Whether a byte is a UTF-8 continuation byte. -/
def isCont (b : Nat) : Bool := decide (0x80 ≤ b ∧ b < 0xC0)

mutual

/-- UTF-8 decoding of a byte sequence, one function per sequence length;
invalid sequences produce the replacement character. -/
def utf8Decode : List Nat → List Char
  | [] => []
  | b0 :: rest =>
    if b0 < 128 then Char.ofNat b0 :: utf8Decode rest
    else if 192 ≤ b0 ∧ b0 < 224 then utf8Dec2 b0 rest
    else if 224 ≤ b0 ∧ b0 < 240 then utf8Dec3 b0 rest
    else if 240 ≤ b0 ∧ b0 < 248 then utf8Dec4 b0 rest
    else replChar :: utf8Decode rest
termination_by l => (l.length, 1)

/-- Decoding of a two-byte sequence after its lead byte. -/
def utf8Dec2 : Nat → List Nat → List Char
  | _, [] => [replChar]
  | b0, b1 :: rest =>
    if isCont b1 then Char.ofNat ((b0 - 192) * 64 + (b1 - 128)) :: utf8Decode rest
    else replChar :: utf8Decode (b1 :: rest)
termination_by _ rest => (rest.length + 1, 0)

/-- Decoding of a three-byte sequence after its lead byte. -/
def utf8Dec3 : Nat → List Nat → List Char
  | _, [] => [replChar]
  | _, [b1] => replChar :: utf8Decode [b1]
  | b0, b1 :: b2 :: rest =>
    if isCont b1 && isCont b2 then
      Char.ofNat ((b0 - 224) * 4096 + (b1 - 128) * 64 + (b2 - 128)) :: utf8Decode rest
    else replChar :: utf8Decode (b1 :: b2 :: rest)
termination_by _ rest => (rest.length + 1, 0)

/-- Decoding of a four-byte sequence after its lead byte. -/
def utf8Dec4 : Nat → List Nat → List Char
  | _, [] => [replChar]
  | _, [b1] => replChar :: utf8Decode [b1]
  | _, [b1, b2] => replChar :: utf8Decode [b1, b2]
  | b0, b1 :: b2 :: b3 :: rest =>
    if isCont b1 && isCont b2 && isCont b3 then
      Char.ofNat ((b0 - 240) * 262144 + (b1 - 128) * 4096 + (b2 - 128) * 64 + (b3 - 128)) ::
        utf8Decode rest
    else replChar :: utf8Decode (b1 :: b2 :: b3 :: rest)
termination_by _ rest => (rest.length + 1, 0)

end

/-- Second pass of `unquote`: decode each maximal run of percent-escaped
bytes as UTF-8; `acc` holds the bytes of the pending run in reverse. -/
def regroupAux (acc : List Nat) : List UTok → List Char
  | [] => utf8Decode acc.reverse
  | .byte b :: rest => regroupAux (b :: acc) rest
  | .ch c :: rest => utf8Decode acc.reverse ++ c :: regroupAux [] rest

/-- Model of `urllib.parse.unquote(s)` with `errors='replace'`. -/
def pyUnquote (s : String) : String :=
  (regroupAux [] (unquoteScan s.data)).asString

/-- An lxml element tree: tag, text and children. -/
inductive XTree where
  | node : String → Option String → List XTree → XTree

/-- Tag of an element. -/
def XTree.tag : XTree → String
  | .node t _ _ => t

/-- Text of an element (`None` is possible, as in lxml). -/
def XTree.text : XTree → Option String
  | .node _ s _ => s

/-- Children of an element. -/
def XTree.children : XTree → List XTree
  | .node _ _ c => c

/-- One level of ancestry of an element during iteration: the sibling list
that contains it and its index there.  `getparent` follows the enclosing
frame; `getprevious` looks at the index one below in `sibs`. -/
structure Frame where
  sibs : List XTree
  idx : Nat

mutual

/-- Document-order iteration (`tree.iter`): the element itself followed by
the descendants, each paired with its stack of ancestor frames, innermost
first. -/
def locOne : XTree → List Frame → List (XTree × List Frame)
  | .node tg tx cs, stack => (.node tg tx cs, stack) :: locMany cs cs 0 stack

/-- Iteration over a sibling list starting at index `i` of `all`. -/
def locMany : List XTree → List XTree → Nat → List Frame → List (XTree × List Frame)
  | _, [], _, _ => []
  | all, c :: rest, i, stack => locOne c (⟨all, i⟩ :: stack) ++ locMany all rest (i + 1) stack

end

/-- Ontology class used to filter the search results to books. -/
def BOOK_IDENTIFIER : String := "http://dbpedia.org/ontology/Book"

/-- The positional navigation of `extract_books` from a matching `URI`
element: `Class = element.getparent()`, `Classes = Class.getparent()`,
`Description = Classes.getprevious()`, `URI = Description.getprevious()`,
`Label = URI.getprevious()`; yields `(Label.text, URI.text)`.  A `None`
along the way makes the Python code raise `AttributeError`, modelled as
`none`. -/
def navigate (stack : List Frame) : Option (Option String × Option String) :=
  match stack with
  | _ :: _ :: f2 :: _ =>
    if 3 ≤ f2.idx then
      match f2.sibs[f2.idx - 3]?, f2.sibs[f2.idx - 2]?, f2.sibs[f2.idx - 1]? with
      | some lab, some uri, some _ => some (lab.text, uri.text)
      | _, _, _ => none
    else none
  | _ => none

/-- The `(Label.text, URI.text)` pairs found by scanning the iterated
elements for `URI` elements whose text is the Book ontology class, in
document order; crashes if the positional navigation hits a `None`. -/
def collectBooks : List (XTree × List Frame) → PyResult (List (Option String × Option String))
  | [] => .ok []
  | (e, stack) :: rest =>
    if e.tag = "URI" ∧ e.text = some BOOK_IDENTIFIER then
      match navigate stack with
      | some pair =>
        match collectBooks rest with
        | .ok ps => .ok (pair :: ps)
        | .exit m => .exit m
        | .crash err => .crash err
      | none => .crash "AttributeError"
    else collectBooks rest

/-- The `dict_of_books` built by `extract_books`, as an insertion-ordered
association list from `Label.text` to `URI.text`. -/
def booksDict (tree : XTree) : PyResult (List (Option String × Option String)) :=
  match collectBooks (locOne tree []) with
  | .ok pairs => .ok (buildDict pairs)
  | .exit m => .exit m
  | .crash err => .crash err

/-- The address transformation applied to the chosen resource identifier:
`resource.replace("resource", "data") + '.json'`. -/
def toJsonURI (resource : String) : String :=
  pyReplace resource "resource" "data" ++ ".json"

/-- `extract_books` from the source: filter the parsed search response to
book-typed entities, exit when there are none, auto-select a single hit,
and otherwise select by the (already captured) console `choice`, returning
the metadata-document address.  `int(choice)` failure is `ValueError`,
a bad index is `IndexError`, both unhandled. -/
def extract_books (tree : XTree) (choice : String) : PyResult String :=
  match booksDict tree with
  | .exit m => .exit m
  | .crash err => .crash err
  | .ok d =>
    match d with
    | [] => .exit "There are no books found for your search query... Try again."
    | [(_, res)] =>
      match res with
      | some r => .ok (toJsonURI r)
      | none => .crash "AttributeError"
    | _ =>
      match pyInt choice with
      | none => .crash "ValueError"
      | some k =>
        match pyIndex (d.map Prod.fst) k with
        | none => .crash "IndexError"
        | some title =>
          match pyDictGet d title with
          | some (some r) => .ok (toJsonURI r)
          | some none => .crash "AttributeError"
          | none => .crash "KeyError"

/-- A network request made by the program. -/
inductive NetCall where
  | probe : String → NetCall
  | search : String → NetCall
  | fetchMeta : String → NetCall
deriving DecidableEq

/-- The environment supplying what `urllib.request.urlopen` would return:
an HTTP status for a probe URL, a parsed search response, a parsed JSON
metadata document — or, as `Except.error`, a raised transport error
(`URLError` / `HTTPError`) — plus the console line read by `input()`. -/
structure Env where
  probeResp : String → Except String Nat
  searchResp : String → Except String XTree
  metaResp : String → Except String (List (String × List (String × List (List (String × String)))))
  choice : String

/-- The fixed, ordered candidate base URLs of `getAPIprefix`. -/
def apiPrefixes : List String :=
  ["https://lookup.dbpedia.org/api/search/PrefixSearch?QueryString=",
   "http://lookup.dbpedia.org/api/search/PrefixSearch?QueryString=",
   "https://lookup.dbpedia.org/api/prefix?query=",
   "http://lookup.dbpedia.org/api/prefix?query=",
   "http://akswnc7.informatik.uni-leipzig.de/lookup/api/search?query="]

/-- Probe loop of `getAPIprefix`: each candidate is probed with the fixed
term `"Antwerp"`; a raised transport error propagates unhandled (`crash`),
the first `200` status wins, and exhaustion exits fatally.  The list of
issued probe requests is returned alongside the outcome. -/
def probeLoop (env : Env) : List String → List NetCall × PyResult String
  | [] => ([], .exit "No functioning DBpedia lookup API found!")
  | p :: ps =>
    match env.probeResp (p ++ "Antwerp") with
    | .error e => ([.probe (p ++ "Antwerp")], .crash e)
    | .ok st =>
      if st = 200 then ([.probe (p ++ "Antwerp")], .ok p)
      else
        match probeLoop env ps with
        | (t, r) => (.probe (p ++ "Antwerp") :: t, r)

/-- `getAPIprefix` from the source. -/
def getAPIprefix (env : Env) : List NetCall × PyResult String :=
  probeLoop env apiPrefixes

/-- A search response of the shape produced by the DBpedia lookup service:
one `Result` element per entity, holding `Label`, `URI`, `Description` and
a `Classes/Class/(Label, URI)` group giving the entity's ontology class. -/
def mkResult (label uri cls : String) : XTree :=
  .node "Result" none
    [.node "Label" (some label) [],
     .node "URI" (some uri) [],
     .node "Description" (some "a description") [],
     .node "Classes" none
       [.node "Class" none
         [.node "Label" (some "a class label") [],
          .node "URI" (some cls) []]]]

/-- A whole search response tree for a list of `(label, uri)` entities, all
typed with the Book ontology class. -/
def mkSearchTree (entries : List (String × String)) : XTree :=
  .node "ArrayOfResults" none (entries.map fun e => mkResult e.1 e.2 BOOK_IDENTIFIER)

/-- A JSON value object (e.g. `{"type": ..., "value": ..., "lang": ...}`),
modelled as a Python dict of strings. -/
abbrev JObj := List (String × String)

/-- The predicate map of one entity: predicate identifier to its sequence
of value objects. -/
abbrev JPred := List (String × List JObj)

/-- A metadata document: the top-level mapping of a DBpedia `.json`
entity description. -/
abbrev JDoc := List (String × JPred)

/-- Predicate identifier for the author. -/
def AUTHOR_ID : String := "http://dbpedia.org/ontology/author"

/-- Predicate identifier for the publisher. -/
def PUBLISHER_ID : String := "http://dbpedia.org/ontology/publisher"

/-- Predicate identifier for the publication date. -/
def PUBLICATIONDATE_ID : String := "http://dbpedia.org/property/published"

/-- Predicate identifier for the page count. -/
def PAGES_ID : String := "http://dbpedia.org/ontology/numberOfPages"

/-- Predicate identifier for the genre. -/
def GENRE_ID : String := "http://dbpedia.org/property/genre"

/-- Predicate identifier for the abstract. -/
def ABSTRACT_ID : String := "http://dbpedia.org/ontology/abstract"

/-- The mutable answer variables of `extract_metadata`. -/
structure Meta where
  author : String
  author_uri : String
  publisher : String
  publisher_uri : String
  pubdate : String
  pages : String
  genre : String
  abstract : String
deriving DecidableEq

/-- Initial state: every answer starts as the sentinel. -/
def initMeta : Meta :=
  ⟨"not found", "not found", "not found", "not found",
   "not found", "not found", "not found", "not found"⟩

/-- Author loop: each value object overwrites `AUTHOR_URI` with its
`value` and `AUTHOR_ANSWER` with the derived label; a missing `value`
key raises `KeyError`. -/
def foldAuthor (st : Meta) : List JObj → PyResult Meta
  | [] => .ok st
  | o :: os =>
    match pyDictGet o "value" with
    | some v => foldAuthor { st with author_uri := v, author := pathLabel v } os
    | none => .crash "KeyError"

/-- Publisher loop, as for the author. -/
def foldPublisher (st : Meta) : List JObj → PyResult Meta
  | [] => .ok st
  | o :: os =>
    match pyDictGet o "value" with
    | some v => foldPublisher { st with publisher_uri := v, publisher := pathLabel v } os
    | none => .crash "KeyError"

/-- Publication-date loop: the raw `value` overwrites the answer. -/
def foldDate (st : Meta) : List JObj → PyResult Meta
  | [] => .ok st
  | o :: os =>
    match pyDictGet o "value" with
    | some v => foldDate { st with pubdate := v } os
    | none => .crash "KeyError"

/-- Page-count loop: the raw `value` overwrites the answer. -/
def foldPages (st : Meta) : List JObj → PyResult Meta
  | [] => .ok st
  | o :: os =>
    match pyDictGet o "value" with
    | some v => foldPages { st with pages := v } os
    | none => .crash "KeyError"

/-- Genre loop: the derived label overwrites the answer (the raw value is
not kept in the result). -/
def foldGenre (st : Meta) : List JObj → PyResult Meta
  | [] => .ok st
  | o :: os =>
    match pyDictGet o "value" with
    | some v => foldGenre { st with genre := pathLabel v } os
    | none => .crash "KeyError"

/-- Inner abstract loop over the fields of one value object: whenever a
field's value equals `'en'`, the answer becomes the object's `value`
(`dic[k] == 'en'` is tested for every key `k`, not only the locale tag). -/
def foldAbstractObj (o : JObj) (st : Meta) : List (String × String) → PyResult Meta
  | [] => .ok st
  | (_, v) :: rest =>
    if v = "en" then
      match pyDictGet o "value" with
      | some x => foldAbstractObj o { st with abstract := x } rest
      | none => .crash "KeyError"
    else foldAbstractObj o st rest

/-- Abstract loop over the value objects. -/
def foldAbstract (st : Meta) : List JObj → PyResult Meta
  | [] => .ok st
  | o :: os =>
    match foldAbstractObj o st o with
    | .ok st' => foldAbstract st' os
    | .exit m => .exit m
    | .crash err => .crash err

/-- Dispatch on one predicate of one entity (`if resource == ... elif ...`);
an unknown predicate leaves the state unchanged. -/
def procPred (st : Meta) (resource : String) (objs : List JObj) : PyResult Meta :=
  if resource = AUTHOR_ID then foldAuthor st objs
  else if resource = PUBLISHER_ID then foldPublisher st objs
  else if resource = PUBLICATIONDATE_ID then foldDate st objs
  else if resource = PAGES_ID then foldPages st objs
  else if resource = GENRE_ID then foldGenre st objs
  else if resource = ABSTRACT_ID then foldAbstract st objs
  else .ok st

/-- Loop over the predicates of one entity. -/
def procPreds (st : Meta) : JPred → PyResult Meta
  | [] => .ok st
  | (resource, objs) :: rest =>
    match procPred st resource objs with
    | .ok st' => procPreds st' rest
    | .exit m => .exit m
    | .crash err => .crash err

/-- Loop over the top-level entities of the metadata document. -/
def procDoc (st : Meta) : JDoc → PyResult Meta
  | [] => .ok st
  | (_, preds) :: rest =>
    match procPreds st preds with
    | .ok st' => procDoc st' rest
    | .exit m => .exit m
    | .crash err => .crash err

/-- The pure part of `extract_metadata`: extraction of the answers from an
already fetched and parsed metadata document. -/
def extract_metadata_core (doc : JDoc) : PyResult Meta :=
  procDoc initMeta doc

/-- The dictionary returned by `extract_metadata`, in its insertion
order. -/
def metaDict (m : Meta) : List (String × String) :=
  [("AUTHOR", m.author),
   ("AUTHOR_RESOURCE", m.author_uri),
   ("PUBLISHER", m.publisher),
   ("PUBLISHER_RESOURCE", m.publisher_uri),
   ("PUBLICATION DATE", m.pubdate),
   ("NUMBER OF PAGES", m.pages),
   ("GENRE", m.genre),
   ("ABSTRACT", m.abstract)]

/-- Whether `s` ends with `suffix` (model of `str.endswith`). -/
def pyEndsWith (s suffix : String) : Bool :=
  suffix.data.reverse.isPrefixOf s.data.reverse

/-- `display_results` from the source, as the list of printed lines: a
`RESOURCE` key whose value was found prints the pointer form, the abstract
prints its text after a newline, and everything else prints
`- KEY: value`. -/
def display_results (metadata : List (String × String)) : List String :=
  metadata.map fun kv =>
    if pyEndsWith kv.1 "RESOURCE" ∧ kv.2 ≠ "not found" then
      "-> for more info see " ++ kv.2
    else if kv.1 = "ABSTRACT" then
      "- " ++ kv.1 ++ ": \n" ++ kv.2
    else
      "- " ++ kv.1 ++ ": " ++ kv.2

/-- `extract_metadata` from the source: fetch the metadata document (one
network request); a raised `HTTPError`/`URLError` is caught, printed and
re-raised via `exit`, everything else proceeds with the extraction. -/
def extract_metadata (env : Env) (uri : String) : List NetCall × PyResult Meta :=
  ([.fetchMeta uri],
   match env.metaResp uri with
   | .error e => .exit e
   | .ok doc => extract_metadata_core doc)

/-- `query_DBpedia` from the source: sanitize, probe, search, filter,
fetch metadata, display.  The first component is the list of network
requests issued, in order; `HTTPError`/`URLError` around the search and
the later stages is caught and turned into `exit`, while `SystemExit`
(our `exit`) and other exceptions (our `crash`) propagate. -/
def query_DBpedia (env : Env) (search : String) : List NetCall × PyResult (List String) :=
  match clean search with
  | .exit m => ([], .exit m)
  | .crash err => ([], .crash err)
  | .ok bookname =>
    match getAPIprefix env with
    | (t1, .exit m) => (t1, .exit m)
    | (t1, .crash err) => (t1, .crash err)
    | (t1, .ok pfx) =>
      let url := pfx ++ bookname
      match env.searchResp url with
      | .error e => (t1 ++ [.search url], .exit e)
      | .ok tree =>
        match extract_books tree env.choice with
        | .exit m => (t1 ++ [.search url], .exit m)
        | .crash err => (t1 ++ [.search url], .crash err)
        | .ok uriJson =>
          match extract_metadata env uriJson with
          | (t2, .exit m) => (t1 ++ [.search url] ++ t2, .exit m)
          | (t2, .crash err) => (t1 ++ [.search url] ++ t2, .crash err)
          | (t2, .ok m) => (t1 ++ [.search url] ++ t2, .ok (display_results (metaDict m)))

/-- The `value` field of the last value object of a predicate (what
last-write-wins extraction is expected to produce). -/
def lastValue (objs : List JObj) : Option String :=
  objs.getLast?.bind fun o => pyDictGet o "value"

/-- Predicate `pid` does not occur in the metadata document. -/
def predAbsent (doc : JDoc) (pid : String) : Prop :=
  ∀ ev ∈ doc, ∀ pr ∈ ev.2, pr.1 ≠ pid

instance predAbsentDecidable (doc : JDoc) (pid : String) : Decidable (predAbsent doc pid) :=
  inferInstanceAs (Decidable (∀ ev ∈ doc, ∀ pr ∈ ev.2, pr.1 ≠ pid))

/-- The characters contributed to the quoted string by one input
character. -/
def quoteChars (c : Char) : List Char :=
  (utf8EncodeChar c).flatMap quoteByte

/-- The tokens the unquote scanner recovers from one quoted character: a
safe character comes back literally, an unsafe one as its UTF-8 bytes. -/
def tokensOfChar (c : Char) : List UTok :=
  if quoteSafe c.toNat then [UTok.ch c] else (utf8EncodeChar c).map UTok.byte

/-- A search response containing a single entity that is typed as a Film,
not a Book. -/
def treeFilm : XTree :=
  .node "ArrayOfResults" none [mkResult "Dune" "http://dbpedia.org/resource/Dune_(film)" "http://dbpedia.org/ontology/Film"]

/-- An environment whose probes all succeed and whose search returns the
Film-only response. -/
def envFilm : Env :=
  { probeResp := fun _ => .ok 200
    searchResp := fun _ => .ok treeFilm
    metaResp := fun _ => .ok []
    choice := "0" }

/-- An environment whose probes all raise a transport error. -/
def envProbeCrash : Env :=
  { probeResp := fun _ => .error "URLError: connection refused"
    searchResp := fun _ => .error "URLError: connection refused"
    metaResp := fun _ => .error "URLError: connection refused"
    choice := "0" }

/-- An environment whose probes all respond with status 404 without
raising. -/
def env404 : Env :=
  { probeResp := fun _ => .ok 404
    searchResp := fun _ => .ok treeFilm
    metaResp := fun _ => .ok []
    choice := "0" }

/-- An environment where the first two candidates respond with status 404
and every later probe raises a transport error. -/
def envMidCrash : Env :=
  { probeResp := fun u =>
      if u = "https://lookup.dbpedia.org/api/search/PrefixSearch?QueryString=Antwerp" ∨
          u = "http://lookup.dbpedia.org/api/search/PrefixSearch?QueryString=Antwerp" then
        .ok 404
      else .error "URLError: connection refused"
    searchResp := fun _ => .error "URLError: connection refused"
    metaResp := fun _ => .error "URLError: connection refused"
    choice := "0" }

deriving instance DecidableEq for Except

/-- Whether a probe response is a status (no exception raised). -/
def respondsOk : Except String Nat → Bool
  | .ok _ => true
  | .error _ => false

/-- C7 helper: the fatal message of the zero-books branch. -/
def NO_BOOKS_MSG : String := "There are no books found for your search query... Try again."

/-- The metadata record extracted from a document carrying only a
publisher. -/
def metaChilton : Meta :=
  ⟨"not found", "not found", "Chilton Books",
   "http://dbpedia.org/resource/Chilton_Books", "not found", "not found",
   "not found", "not found"⟩

/-- The metadata record extracted from a document whose author predicate
carries two values, the second being Frank Herbert. -/
def metaHerbert : Meta :=
  ⟨"Frank Herbert", "http://dbpedia.org/resource/Frank_Herbert", "not found", "not found",
   "not found", "not found", "not found", "not found"⟩

/-- The metadata record extracted from the abstract counterexample
document: the French object's value wins because its value field is the
literal string en. -/
def metaAbstractEn : Meta :=
  ⟨"not found", "not found", "not found", "not found", "not found", "not found",
   "not found", "en"⟩

/-- The metadata record extracted from a well-behaved two-language
abstract document. -/
def metaAbstractOk : Meta :=
  ⟨"not found", "not found", "not found", "not found", "not found", "not found",
   "not found", "The English abstract"⟩

theorem collectBooks_append (xs ys : List (XTree × List Frame)) :
    collectBooks (xs ++ ys) =
      match collectBooks xs with
      | .ok ps =>
        match collectBooks ys with
        | .ok qs => .ok (ps ++ qs)
        | .exit m => .exit m
        | .crash e => .crash e
      | .exit m => .exit m
      | .crash e => .crash e := by
  induction xs with
  | nil => simp [collectBooks]; rcases collectBooks ys <;> rfl
  | cons x xs ih =>
    rcases x with ⟨e, stack⟩
    simp only [List.cons_append, collectBooks]
    split
    · rcases hn : navigate stack with _ | pair
      · rfl
      · simp only [List.append_eq]
        rw [ih]
        rcases collectBooks xs with ps | m | er <;> rcases collectBooks ys with qs | m' | er' <;> simp
    · exact ih

theorem collect_mkResult (l u cls : String) (stack : List Frame)
    (hu : u ≠ BOOK_IDENTIFIER) (hcls : cls = BOOK_IDENTIFIER) :
    collectBooks (locOne (mkResult l u cls) stack) = .ok [(some l, some u)] := by
  subst hcls
  simp [mkResult, locOne, locMany, collectBooks, navigate, XTree.tag, XTree.text, hu]

theorem collect_locMany_books (entries : List (String × String)) :
    ∀ (all : List XTree) (i : Nat) (stack : List Frame),
    (∀ p ∈ entries, p.2 ≠ BOOK_IDENTIFIER) →
    collectBooks (locMany all (entries.map fun e => mkResult e.1 e.2 BOOK_IDENTIFIER) i stack) =
      .ok (entries.map fun e => (some e.1, some e.2)) := by
  induction entries with
  | nil => intro all i stack _; simp [locMany, collectBooks]
  | cons e es ih =>
    intro all i stack hu
    simp only [List.map_cons, locMany]
    rw [collectBooks_append, collect_mkResult e.1 e.2 _ _ (hu e (by simp)) rfl,
      ih all (i + 1) stack (fun p hp => hu p (by simp [hp]))]
    rfl

theorem booksDict_mkSearchTree (entries : List (String × String))
    (hu : ∀ p ∈ entries, p.2 ≠ BOOK_IDENTIFIER) :
    booksDict (mkSearchTree entries) =
      .ok (buildDict (entries.map fun e => (some e.1, some e.2))) := by
  unfold booksDict mkSearchTree
  rw [show locOne (XTree.node "ArrayOfResults" none (entries.map fun e => mkResult e.1 e.2 BOOK_IDENTIFIER)) [] =
      (XTree.node "ArrayOfResults" none (entries.map fun e => mkResult e.1 e.2 BOOK_IDENTIFIER), []) ::
      locMany (entries.map fun e => mkResult e.1 e.2 BOOK_IDENTIFIER) (entries.map fun e => mkResult e.1 e.2 BOOK_IDENTIFIER) 0 [] from rfl]
  rw [show collectBooks ((XTree.node "ArrayOfResults" none (entries.map fun e => mkResult e.1 e.2 BOOK_IDENTIFIER), []) ::
      locMany (entries.map fun e => mkResult e.1 e.2 BOOK_IDENTIFIER) (entries.map fun e => mkResult e.1 e.2 BOOK_IDENTIFIER) 0 []) =
      collectBooks (locMany (entries.map fun e => mkResult e.1 e.2 BOOK_IDENTIFIER) (entries.map fun e => mkResult e.1 e.2 BOOK_IDENTIFIER) 0 []) by
    simp [collectBooks, XTree.tag]]
  rw [collect_locMany_books entries _ 0 [] hu]

theorem dictInsert_not_mem {K V : Type} [DecidableEq K] (d : List (K × V)) (k : K) (v : V)
    (h : k ∉ d.map Prod.fst) : dictInsert d k v = d ++ [(k, v)] := by
  induction d with
  | nil => rfl
  | cons p d ih =>
    simp only [List.map_cons, List.mem_cons] at h
    push_neg at h
    have hne : ¬ p.1 = k := fun hk => h.1 hk.symm
    simp only [dictInsert, if_neg hne, List.cons_append]
    rw [ih h.2]

theorem foldl_dictInsert_nodup {K V : Type} [DecidableEq K] (ps : List (K × V)) :
    ∀ d : List (K × V), (ps.map Prod.fst).Nodup →
    (∀ k ∈ ps.map Prod.fst, k ∉ d.map Prod.fst) →
    ps.foldl (fun d p => dictInsert d p.1 p.2) d = d ++ ps := by
  induction ps with
  | nil => intro d _ _; simp
  | cons p ps ih =>
    intro d hnd hdisj
    simp only [List.map_cons, List.nodup_cons] at hnd
    simp only [List.foldl_cons]
    rw [dictInsert_not_mem d p.1 p.2 (hdisj p.1 (by simp)),
      ih (d ++ [(p.1, p.2)]) hnd.2]
    · simp
    · intro k hk
      have h1 : k ∉ d.map Prod.fst := hdisj k (by simp [hk])
      intro hkd'
      rw [List.map_append] at hkd'
      rcases List.mem_append.mp hkd' with hkd | hkp
      · exact h1 hkd
      · simp only [List.map_cons, List.map_nil, List.mem_singleton] at hkp
        exact hnd.1 (hkp ▸ hk)

theorem buildDict_nodup {K V : Type} [DecidableEq K] (ps : List (K × V))
    (h : (ps.map Prod.fst).Nodup) : buildDict ps = ps := by
  unfold buildDict
  rw [foldl_dictInsert_nodup ps [] h (by simp)]
  simp

theorem pyIndex_map {α β : Type} (f : α → β) (xs : List α) (i : Int) :
    pyIndex (xs.map f) i = (pyIndex xs i).map f := by
  unfold pyIndex
  simp only [List.length_map]
  split
  · simp [List.getElem?_map]
  · split
    · simp [List.getElem?_map]
    · simp

theorem pyIndex_none {α : Type} (xs : List α) (i : Int)
    (h : i < -(xs.length : Int) ∨ (xs.length : Int) ≤ i) : pyIndex xs i = none := by
  unfold pyIndex
  rcases h with h | h
  · rw [if_neg (by omega), if_neg (by omega)]
  · rw [if_pos (by omega)]
    rw [List.getElem?_eq_none]
    omega

theorem pyDictGet_of_mem_nodup {K V : Type} [DecidableEq K] (ps : List (K × V)) (k : K) (v : V)
    (hnd : (ps.map Prod.fst).Nodup) (hmem : (k, v) ∈ ps) : pyDictGet ps k = some v := by
  induction ps with
  | nil => simp at hmem
  | cons p ps ih =>
    simp only [List.map_cons, List.nodup_cons] at hnd
    rcases List.mem_cons.mp hmem with h | h
    · subst h
      simp [pyDictGet]
    · have hne : p.1 ≠ k := by
        rintro rfl
        exact hnd.1 (List.mem_map.mpr ⟨(p.1, v), h, rfl⟩)
      rcases p with ⟨k', v'⟩
      simp only [pyDictGet, if_neg hne]
      exact ih hnd.2 h

theorem pyIndex_mem {α : Type} (xs : List α) (i : Int) (e : α)
    (h : pyIndex xs i = some e) : e ∈ xs := by
  unfold pyIndex at h
  split at h
  · exact List.getElem?_mem h
  · split at h
    · exact List.getElem?_mem h
    · simp at h

theorem extract_books_multi_valueerror (tree : XTree) (choice : String)
    (pairs : List (Option String × Option String))
    (hd : booksDict tree = .ok pairs) (hlen : 2 ≤ pairs.length)
    (h1 : pyInt choice = none) : extract_books tree choice = .crash "ValueError" := by
  unfold extract_books
  rw [hd]
  rcases pairs with _ | ⟨p1, _ | ⟨p2, rest⟩⟩
  · simp at hlen
  · simp at hlen
  · simp only [h1]

theorem extract_books_multi_indexerror (tree : XTree) (choice : String)
    (pairs : List (Option String × Option String)) (k : Int)
    (hd : booksDict tree = .ok pairs) (hlen : 2 ≤ pairs.length)
    (hk : pyInt choice = some k) (hidx : pyIndex (pairs.map Prod.fst) k = none) :
    extract_books tree choice = .crash "IndexError" := by
  unfold extract_books
  rw [hd]
  rcases pairs with _ | ⟨p1, _ | ⟨p2, rest⟩⟩
  · simp at hlen
  · simp at hlen
  · simp only [List.map_cons] at hidx
    simp only [hk, List.map_cons, hidx]

theorem extract_books_multi_select (tree : XTree) (choice : String)
    (pairs : List (Option String × Option String)) (k : Int) (title : Option String)
    (hd : booksDict tree = .ok pairs) (hlen : 2 ≤ pairs.length)
    (hk : pyInt choice = some k) (hidx : pyIndex (pairs.map Prod.fst) k = some title) :
    extract_books tree choice =
      match pyDictGet pairs title with
      | some (some r) => .ok (toJsonURI r)
      | some none => .crash "AttributeError"
      | none => .crash "KeyError" := by
  unfold extract_books
  rw [hd]
  rcases pairs with _ | ⟨p1, _ | ⟨p2, rest⟩⟩
  · simp at hlen
  · simp at hlen
  · simp only [List.map_cons] at hidx
    simp only [hk, List.map_cons, hidx]

/-- C1 (amended): for every chosen entity, the metadata-document address is
obtained by replacing every occurrence of the substring resource by data in
the resource identifier (Python str.replace) and appending .json; when
resource occurs only in the path segment, as in .../resource/Dune_(novel),
this agrees with the claimed path-segment substitution. -/
theorem c1_address_transform (label uri choice : String) (hu : uri ≠ BOOK_IDENTIFIER) :
    extract_books (mkSearchTree [(label, uri)]) choice =
      .ok (pyReplace uri "resource" "data" ++ ".json") := by
  unfold extract_books
  rw [booksDict_mkSearchTree [(label, uri)] (by simpa using hu)]
  rfl

/-- C1 (counterexample): the address transformation replaces every
occurrence of the substring resource, so an entity name containing
resource is mangled: .../resource/Human_resource becomes
.../data/Human_data.json and not .../data/Human_resource.json. -/
theorem c1_counterexample :
    extract_books (mkSearchTree [("Human resource", "http://dbpedia.org/resource/Human_resource")]) "" =
      .ok "http://dbpedia.org/data/Human_data.json" ∧
    extract_books (mkSearchTree [("Human resource", "http://dbpedia.org/resource/Human_resource")]) "" ≠
      .ok "http://dbpedia.org/data/Human_resource.json" := by
  decide

/-- C1 witness: the Dune example from the specification. -/
theorem c1_address_transform_witness :
    extract_books (mkSearchTree [("Dune (novel)", "http://dbpedia.org/resource/Dune_(novel)")]) "" =
      .ok "http://dbpedia.org/data/Dune_(novel).json" := by
  rw [c1_address_transform "Dune (novel)" "http://dbpedia.org/resource/Dune_(novel)" "" (by decide)]
  decide

/-- C3 (amended): for a multi-candidate disambiguation over N distinct
titles, a non-numeric choice crashes with ValueError, a choice outside
the range -N ≤ k < N crashes with IndexError, and every choice whose
index Python accepts, including negative indices down to -N, selects the
corresponding book. -/
theorem c3_choice_selection (entries : List (String × String)) (choice : String)
    (hlen : 2 ≤ entries.length)
    (hlab : (entries.map Prod.fst).Nodup)
    (hu : ∀ p ∈ entries, p.2 ≠ BOOK_IDENTIFIER) :
    (pyInt choice = none → extract_books (mkSearchTree entries) choice = .crash "ValueError") ∧
    (∀ k : Int, pyInt choice = some k →
      (k < -(entries.length : Int) ∨ (entries.length : Int) ≤ k) →
      extract_books (mkSearchTree entries) choice = .crash "IndexError") ∧
    (∀ (k : Int) (e : String × String), pyInt choice = some k → pyIndex entries k = some e →
      extract_books (mkSearchTree entries) choice =
        .ok (pyReplace e.2 "resource" "data" ++ ".json")) := by
  have hkeys : ((entries.map fun e => ((some e.1 : Option String), (some e.2 : Option String))).map
      Prod.fst) = (entries.map Prod.fst).map some := by
    simp [List.map_map, Function.comp_def]
  have hpairsnd : ((entries.map fun e => ((some e.1 : Option String), (some e.2 : Option String))).map
      Prod.fst).Nodup := by
    rw [hkeys]
    exact hlab.map (Option.some_injective _)
  have hpairs : booksDict (mkSearchTree entries) =
      .ok (entries.map fun e => ((some e.1 : Option String), (some e.2 : Option String))) := by
    rw [booksDict_mkSearchTree entries hu, buildDict_nodup _ hpairsnd]
  have hplen : 2 ≤ ((entries.map fun e =>
      ((some e.1 : Option String), (some e.2 : Option String))).length) := by
    simpa using hlen
  refine ⟨?_, ?_, ?_⟩
  · intro h1
    exact extract_books_multi_valueerror _ _ _ hpairs hplen h1
  · intro k hk hrange
    refine extract_books_multi_indexerror _ _ _ k hpairs hplen hk ?_
    rw [hkeys, pyIndex_map some _ k, pyIndex_map Prod.fst _ k,
      pyIndex_none _ k (by simpa using hrange)]
    rfl
  · intro k e hk hidx
    have hsel := extract_books_multi_select _ _ _ k (some e.1) hpairs hplen hk ?_
    · rw [hsel, pyDictGet_of_mem_nodup _ _ (some e.2) hpairsnd
        (List.mem_map.mpr ⟨e, pyIndex_mem _ _ _ hidx, rfl⟩)]
      rfl
    · rw [hkeys, pyIndex_map some _ k, pyIndex_map Prod.fst _ k, hidx]
      rfl

/-- C3 (counterexample): with two listed titles, the choice -1, which is
outside the claimed range 0 ≤ k < N, does not fail: Python negative
indexing selects the last book. -/
theorem c3_counterexample :
    extract_books (mkSearchTree [("A", "http://dbpedia.org/resource/A"),
        ("B", "http://dbpedia.org/resource/B")]) "-1" =
      .ok "http://dbpedia.org/data/B.json" := by
  decide

/-- C3 witness: choice 1 selects the second of two books. -/
theorem c3_choice_selection_witness :
    extract_books (mkSearchTree [("A", "http://dbpedia.org/resource/A"),
        ("B", "http://dbpedia.org/resource/B")]) "1" =
      .ok "http://dbpedia.org/data/B.json" := by
  have h := (c3_choice_selection [("A", "http://dbpedia.org/resource/A"),
      ("B", "http://dbpedia.org/resource/B")] "1"
      (by decide) (by decide) (by decide)).2.2 1 ("B", "http://dbpedia.org/resource/B")
      (by decide) (by decide)
  rw [h]
  decide

theorem dictInsert_map_fst {K V : Type} [DecidableEq K] (d : List (K × V)) (k : K) (v : V) :
    (dictInsert d k v).map Prod.fst =
      if k ∈ d.map Prod.fst then d.map Prod.fst else d.map Prod.fst ++ [k] := by
  induction d with
  | nil => simp [dictInsert]
  | cons p d ih =>
    simp only [dictInsert, List.map_cons, List.mem_cons]
    by_cases hpk : p.1 = k
    · subst hpk
      simp
    · rw [if_neg hpk]
      simp only [List.map_cons, ih]
      by_cases hmem : k ∈ d.map Prod.fst
      · rw [if_pos hmem, if_pos (Or.inr hmem)]
      · simp only [if_neg hmem]
        rw [if_neg]
        · simp
        · rintro (h | h)
          · exact hpk h.symm
          · exact hmem h

theorem firstDedupAux_congr {K : Type} [DecidableEq K] (ks : List K) :
    ∀ seen seen' : List K, (∀ x, x ∈ seen ↔ x ∈ seen') →
    firstDedupAux seen ks = firstDedupAux seen' ks := by
  induction ks with
  | nil => intro seen seen' _; rfl
  | cons k ks ih =>
    intro seen seen' h
    simp only [firstDedupAux]
    by_cases hk : k ∈ seen
    · rw [if_pos hk, if_pos ((h k).mp hk)]
      exact ih seen seen' h
    · rw [if_neg hk, if_neg (fun hx => hk ((h k).mpr hx))]
      rw [ih (k :: seen) (k :: seen') (by intro x; simp [h x])]

theorem foldl_dictInsert_map_fst {K V : Type} [DecidableEq K] (ps : List (K × V)) :
    ∀ d : List (K × V),
    (ps.foldl (fun d p => dictInsert d p.1 p.2) d).map Prod.fst =
      d.map Prod.fst ++ firstDedupAux (d.map Prod.fst) (ps.map Prod.fst) := by
  induction ps with
  | nil => intro d; simp [firstDedupAux]
  | cons p ps ih =>
    intro d
    simp only [List.foldl_cons, List.map_cons, firstDedupAux]
    rw [ih (dictInsert d p.1 p.2), dictInsert_map_fst]
    by_cases hmem : p.1 ∈ d.map Prod.fst
    · rw [if_pos hmem, if_pos hmem]
    · rw [if_neg hmem, if_neg hmem]
      rw [firstDedupAux_congr (ps.map Prod.fst) (d.map Prod.fst ++ [p.1]) (p.1 :: d.map Prod.fst)
        (by intro x; simp; tauto)]
      simp

theorem buildDict_map_fst {K V : Type} [DecidableEq K] (ps : List (K × V)) :
    (buildDict ps).map Prod.fst = firstDedup (ps.map Prod.fst) := by
  unfold buildDict firstDedup
  rw [foldl_dictInsert_map_fst ps []]
  simp

theorem pyDictGet_dictInsert {K V : Type} [DecidableEq K] (d : List (K × V)) (k k' : K) (v : V) :
    pyDictGet (dictInsert d k v) k' = if k = k' then some v else pyDictGet d k' := by
  induction d with
  | nil => simp [dictInsert, pyDictGet]
  | cons p d ih =>
    simp only [dictInsert]
    by_cases hpk : p.1 = k
    · subst hpk
      simp only [pyDictGet]
      by_cases hkk : p.1 = k'
      · simp only [if_pos hkk]
      · simp only [if_neg hkk]
    · rw [if_neg hpk]
      rcases p with ⟨k0, v0⟩
      simp only [pyDictGet, ih]
      by_cases hkk : k0 = k'
      · subst hkk
        rw [if_pos rfl, if_neg (fun h => hpk h.symm), if_pos rfl]
      · rw [if_neg hkk, if_neg hkk]

theorem foldl_dictInsert_get {K V : Type} [DecidableEq K] (ps : List (K × V)) :
    ∀ (d : List (K × V)) (k : K),
    pyDictGet (ps.foldl (fun d p => dictInsert d p.1 p.2) d) k =
      match lastAssoc ps k with
      | some w => some w
      | none => pyDictGet d k := by
  induction ps with
  | nil => intro d k; rfl
  | cons p ps ih =>
    intro d k
    simp only [List.foldl_cons, lastAssoc]
    rw [ih (dictInsert d p.1 p.2) k, pyDictGet_dictInsert]
    rcases lastAssoc ps k with _ | w
    · by_cases hpk : p.1 = k <;> simp [hpk]
    · simp

theorem buildDict_get {K V : Type} [DecidableEq K] (ps : List (K × V)) (k : K) :
    pyDictGet (buildDict ps) k = lastAssoc ps k := by
  unfold buildDict
  rw [foldl_dictInsert_get ps [] k]
  rcases lastAssoc ps k with _ | w <;> rfl

theorem firstDedupAux_nodup {K : Type} [DecidableEq K] (ks : List K) :
    ∀ seen : List K, (firstDedupAux seen ks).Nodup ∧
      ∀ x ∈ firstDedupAux seen ks, x ∉ seen := by
  induction ks with
  | nil => intro seen; simp [firstDedupAux]
  | cons k ks ih =>
    intro seen
    simp only [firstDedupAux]
    by_cases hk : k ∈ seen
    · rw [if_pos hk]
      exact ih seen
    · rw [if_neg hk]
      refine ⟨List.nodup_cons.mpr ⟨fun hx => ?_, (ih (k :: seen)).1⟩, ?_⟩
      · exact (ih (k :: seen)).2 k hx (by simp)
      · intro x hx
        rcases List.mem_cons.mp hx with rfl | hx'
        · exact hk
        · intro hxs
          exact (ih (k :: seen)).2 x hx' (by simp [hxs])

theorem firstDedupAux_length {K : Type} [DecidableEq K] (ks : List K) :
    ∀ seen : List K, (firstDedupAux seen ks).length ≤ ks.length := by
  induction ks with
  | nil => intro seen; simp [firstDedupAux]
  | cons k ks ih =>
    intro seen
    simp only [firstDedupAux]
    by_cases hk : k ∈ seen
    · rw [if_pos hk]
      exact le_trans (ih seen) (by simp)
    · rw [if_neg hk]
      simpa using ih (k :: seen)

/-- C10: candidate books accumulate in a dict keyed by label text: the
dict built by extract_books from the scanned (label, resource) pairs has
as keys the distinct labels in first-occurrence order (never more keys
than scanned entities), and each key holds the last-scanned resource
identifier for that label. -/
theorem c10_dict_dedup (entries : List (String × String))
    (hu : ∀ p ∈ entries, p.2 ≠ BOOK_IDENTIFIER) :
    booksDict (mkSearchTree entries) =
      .ok (buildDict (entries.map fun e => ((some e.1 : Option String), (some e.2 : Option String)))) ∧
    (buildDict (entries.map fun e =>
        ((some e.1 : Option String), (some e.2 : Option String)))).map Prod.fst =
      firstDedup (entries.map fun e => (some e.1 : Option String)) ∧
    ((buildDict (entries.map fun e =>
        ((some e.1 : Option String), (some e.2 : Option String)))).map Prod.fst).Nodup ∧
    (buildDict (entries.map fun e =>
        ((some e.1 : Option String), (some e.2 : Option String)))).length ≤ entries.length ∧
    ∀ k : Option String,
      pyDictGet (buildDict (entries.map fun e =>
          ((some e.1 : Option String), (some e.2 : Option String)))) k =
        lastAssoc (entries.map fun e => ((some e.1 : Option String), (some e.2 : Option String))) k := by
  have hkeys : ((entries.map fun e => ((some e.1 : Option String), (some e.2 : Option String))).map
      Prod.fst) = entries.map fun e => (some e.1 : Option String) := by
    simp [List.map_map, Function.comp_def]
  refine ⟨booksDict_mkSearchTree entries hu, ?_, ?_, ?_, fun k => buildDict_get _ k⟩
  · rw [buildDict_map_fst, hkeys]
  · rw [buildDict_map_fst]
    exact (firstDedupAux_nodup _ _).1
  · have h1 := firstDedupAux_length (((entries.map fun e =>
        ((some e.1 : Option String), (some e.2 : Option String))).map Prod.fst)) []
    have h2 : (buildDict (entries.map fun e =>
        ((some e.1 : Option String), (some e.2 : Option String)))).length =
        ((buildDict (entries.map fun e =>
          ((some e.1 : Option String), (some e.2 : Option String)))).map Prod.fst).length := by
      simp
    rw [h2, buildDict_map_fst]
    unfold firstDedup
    calc (firstDedupAux [] ((entries.map fun e =>
          ((some e.1 : Option String), (some e.2 : Option String))).map Prod.fst)).length
        ≤ ((entries.map fun e =>
            ((some e.1 : Option String), (some e.2 : Option String))).map Prod.fst).length := h1
      _ ≤ entries.length := by simp

/-- C10 witness: two entities share the label A; one candidate per label
remains and A maps to the last resource u2. -/
theorem c10_dict_dedup_witness :
    booksDict (mkSearchTree [("A", "u1"), ("A", "u2"), ("B", "u3")]) =
      .ok (buildDict ([("A", "u1"), ("A", "u2"), ("B", "u3")].map fun e =>
        ((some e.1 : Option String), (some e.2 : Option String)))) ∧
    (buildDict ([("A", "u1"), ("A", "u2"), ("B", "u3")].map fun e =>
        ((some e.1 : Option String), (some e.2 : Option String)))).map Prod.fst =
      firstDedup ([("A", "u1"), ("A", "u2"), ("B", "u3")].map fun e =>
        (some e.1 : Option String)) ∧
    pyDictGet (buildDict ([("A", "u1"), ("A", "u2"), ("B", "u3")].map fun e =>
        ((some e.1 : Option String), (some e.2 : Option String)))) (some "A") =
      lastAssoc ([("A", "u1"), ("A", "u2"), ("B", "u3")].map fun e =>
        ((some e.1 : Option String), (some e.2 : Option String))) (some "A") := by
  have h := c10_dict_dedup [("A", "u1"), ("A", "u2"), ("B", "u3")] (by decide)
  exact ⟨h.1, h.2.1, h.2.2.2.2 (some "A")⟩

theorem collectBooks_nomatch (l : List (XTree × List Frame))
    (h : ∀ p ∈ l, ¬(p.1.tag = "URI" ∧ p.1.text = some BOOK_IDENTIFIER)) :
    collectBooks l = .ok [] := by
  induction l with
  | nil => rfl
  | cons p l ih =>
    rcases p with ⟨e, stack⟩
    simp only [collectBooks]
    rw [if_neg (h (e, stack) (by simp))]
    exact ih fun q hq => h q (by simp [hq])

theorem probeLoop_probes_only (env : Env) (ps : List String) :
    ∀ c ∈ (probeLoop env ps).1, ∃ q, c = .probe q := by
  induction ps with
  | nil => intro c hc; simp [probeLoop] at hc
  | cons p ps ih =>
    intro c hc
    rcases hr : env.probeResp (p ++ "Antwerp") with e | st
    · simp only [probeLoop, hr] at hc
      simp at hc
      exact ⟨_, hc⟩
    · simp only [probeLoop, hr] at hc
      by_cases h200 : st = 200
      · simp only [if_pos h200] at hc
        simp at hc
        exact ⟨_, hc⟩
      · simp only [if_neg h200] at hc
        rcases hpl : probeLoop env ps with ⟨t, r⟩
        rw [hpl] at hc
        simp at hc
        rcases hc with rfl | hc
        · exact ⟨_, rfl⟩
        · have := ih c
          rw [hpl] at this
          exact this hc

/-- C7: for every search response without a Book-typed URI element,
extract_books exits fatally with the no-books message, and the pipeline
stops there: its outcome is that exit and its network trace contains no
metadata fetch. -/
theorem c7_no_books (tree : XTree) (choice : String)
    (hnb : ∀ p ∈ locOne tree [], ¬(p.1.tag = "URI" ∧ p.1.text = some BOOK_IDENTIFIER)) :
    extract_books tree choice = .exit NO_BOOKS_MSG ∧
    ∀ (env : Env) (s b pfx : String) (t1 : List NetCall),
      clean s = .ok b → getAPIprefix env = (t1, .ok pfx) →
      env.searchResp (pfx ++ b) = .ok tree → env.choice = choice →
      query_DBpedia env s = (t1 ++ [.search (pfx ++ b)], .exit NO_BOOKS_MSG) ∧
      ∀ u : String, NetCall.fetchMeta u ∉ t1 ++ [.search (pfx ++ b)] := by
  have hex : extract_books tree choice = .exit NO_BOOKS_MSG := by
    unfold extract_books booksDict
    rw [collectBooks_nomatch _ hnb]
    rfl
  refine ⟨hex, ?_⟩
  intro env s b pfx t1 hc hg hs hch
  have hquery : query_DBpedia env s = (t1 ++ [.search (pfx ++ b)], .exit NO_BOOKS_MSG) := by
    simp only [query_DBpedia, hc, hg, hs, hch, hex]
  refine ⟨hquery, ?_⟩
  intro u hu
  rcases List.mem_append.mp hu with h1 | h1
  · have hprobe := probeLoop_probes_only env apiPrefixes (NetCall.fetchMeta u)
    unfold getAPIprefix at hg
    rw [hg] at hprobe
    rcases hprobe h1 with ⟨q, hq⟩
    exact NetCall.noConfusion hq
  · simp at h1

/-- C8: for every empty or all-whitespace input string the run exits in
the sanitizer with its message and the network trace is empty, so no
probe, search or metadata fetch occurs. -/
theorem c8_empty_input (env : Env) (s : String)
    (h : s.data = [] ∨ s.data.all isPySpace = true) :
    query_DBpedia env s = ([], .exit "That is an empty string... Try again.") := by
  have hclean : clean s = .exit "That is an empty string... Try again." := by
    unfold clean
    rw [if_neg]
    rintro ⟨h1, h2⟩
    rcases h with h | h
    · rw [h] at h1
      simp at h1
    · unfold pyStrIsSpace at h2
      rw [h] at h2
      have hie : s.data.isEmpty = false := by
        rcases hd : s.data with _ | ⟨a, l⟩
        · rw [hd] at h1
          simp at h1
        · rfl
      rw [hie] at h2
      simp at h2
  unfold query_DBpedia
  rw [hclean]

/-- C8 witness: a whitespace-only input. -/
theorem c8_empty_input_witness :
    query_DBpedia envFilm "   " = ([], .exit "That is an empty string... Try again.") :=
  c8_empty_input envFilm "   " (by decide)

/-- C7 witness: a response containing only a Film-typed entity. -/
theorem c7_no_books_witness :
    query_DBpedia envFilm "dune" =
      ([.probe "https://lookup.dbpedia.org/api/search/PrefixSearch?QueryString=Antwerp",
        .search "https://lookup.dbpedia.org/api/search/PrefixSearch?QueryString=dune"],
        .exit NO_BOOKS_MSG) :=
  ((c7_no_books treeFilm "0" (by decide)).2 envFilm "dune" "dune"
    "https://lookup.dbpedia.org/api/search/PrefixSearch?QueryString="
    [.probe "https://lookup.dbpedia.org/api/search/PrefixSearch?QueryString=Antwerp"]
    (by decide) (by decide) rfl rfl).1

theorem probeLoop_exhaust (env : Env) (ps : List String)
    (h1 : ∀ p ∈ ps, respondsOk (env.probeResp (p ++ "Antwerp")) = true)
    (h2 : ∀ p ∈ ps, env.probeResp (p ++ "Antwerp") ≠ .ok 200) :
    probeLoop env ps = (ps.map fun p => .probe (p ++ "Antwerp"),
      .exit "No functioning DBpedia lookup API found!") := by
  induction ps with
  | nil => rfl
  | cons p ps ih =>
    rcases hr : env.probeResp (p ++ "Antwerp") with e | st
    · exfalso
      have := h1 p (by simp)
      rw [hr] at this
      simp [respondsOk] at this
    · simp only [probeLoop, hr]
      have hne : st ≠ 200 := by
        rintro rfl
        exact h2 p (by simp) hr
      rw [if_neg hne, ih (fun q hq => h1 q (by simp [hq])) (fun q hq => h2 q (by simp [hq]))]
      simp

theorem probeLoop_crash_after (env : Env) (ps1 : List String) (p : String) (ps2 : List String)
    (e : String)
    (h1 : ∀ q ∈ ps1, respondsOk (env.probeResp (q ++ "Antwerp")) = true ∧
      env.probeResp (q ++ "Antwerp") ≠ .ok 200)
    (hp : env.probeResp (p ++ "Antwerp") = .error e) :
    probeLoop env (ps1 ++ p :: ps2) =
      ((ps1.map fun q => .probe (q ++ "Antwerp")) ++ [.probe (p ++ "Antwerp")], .crash e) := by
  induction ps1 with
  | nil =>
    simp only [List.nil_append, probeLoop, hp]
    simp
  | cons q qs ih =>
    rcases hr : env.probeResp (q ++ "Antwerp") with e' | st
    · exfalso
      have := (h1 q (by simp)).1
      rw [hr] at this
      simp [respondsOk] at this
    · simp only [List.cons_append, probeLoop, hr]
      have hne : st ≠ 200 := by
        rintro rfl
        exact (h1 q (by simp)).2 hr
      simp only [List.append_eq]
      rw [if_neg hne, ih (fun r hr' => h1 r (by simp [hr']))]
      simp

theorem probeLoop_first_success (env : Env) (ps1 : List String) (p : String) (ps2 : List String)
    (h1 : ∀ q ∈ ps1, respondsOk (env.probeResp (q ++ "Antwerp")) = true ∧
      env.probeResp (q ++ "Antwerp") ≠ .ok 200)
    (hp : env.probeResp (p ++ "Antwerp") = .ok 200) :
    probeLoop env (ps1 ++ p :: ps2) =
      ((ps1.map fun q => .probe (q ++ "Antwerp")) ++ [.probe (p ++ "Antwerp")], .ok p) := by
  induction ps1 with
  | nil =>
    simp only [List.nil_append, probeLoop, hp, if_pos rfl]
    simp
  | cons q qs ih =>
    rcases hr : env.probeResp (q ++ "Antwerp") with e | st
    · exfalso
      have := (h1 q (by simp)).1
      rw [hr] at this
      simp [respondsOk] at this
    · simp only [List.cons_append, probeLoop, hr]
      have hne : st ≠ 200 := by
        rintro rfl
        exact (h1 q (by simp)).2 hr
      simp only [List.append_eq]
      rw [if_neg hne, ih (fun r hr' => h1 r (by simp [hr']))]
      simp

/-- C2 (amended): getAPIprefix probes the candidates in their fixed order;
when every candidate responds without raising and none has status 200 it
exits fatally with the no-functioning-API message; whichever candidate is
the first to raise a transport error, possibly after earlier candidates
that responded with non-200 statuses, propagates its exception unhandled
instead of falling back or exiting; and the first candidate with status
200 wins after candidates that responded with non-200 statuses. -/
theorem c2_probe_behaviour (env : Env) :
    ((∀ p ∈ apiPrefixes, respondsOk (env.probeResp (p ++ "Antwerp")) = true ∧
        env.probeResp (p ++ "Antwerp") ≠ .ok 200) →
      getAPIprefix env = (apiPrefixes.map fun p => .probe (p ++ "Antwerp"),
        .exit "No functioning DBpedia lookup API found!")) ∧
    (∀ (ps1 : List String) (p : String) (ps2 : List String) (e : String),
      apiPrefixes = ps1 ++ p :: ps2 →
      (∀ q ∈ ps1, respondsOk (env.probeResp (q ++ "Antwerp")) = true ∧
        env.probeResp (q ++ "Antwerp") ≠ .ok 200) →
      env.probeResp (p ++ "Antwerp") = .error e →
      getAPIprefix env =
        ((ps1.map fun q => .probe (q ++ "Antwerp")) ++ [.probe (p ++ "Antwerp")], .crash e)) ∧
    (∀ (ps1 : List String) (p : String) (ps2 : List String), apiPrefixes = ps1 ++ p :: ps2 →
      (∀ q ∈ ps1, respondsOk (env.probeResp (q ++ "Antwerp")) = true ∧
        env.probeResp (q ++ "Antwerp") ≠ .ok 200) →
      env.probeResp (p ++ "Antwerp") = .ok 200 →
      getAPIprefix env =
        ((ps1.map fun q => .probe (q ++ "Antwerp")) ++ [.probe (p ++ "Antwerp")], .ok p)) := by
  refine ⟨?_, ?_, ?_⟩
  · intro hall
    exact probeLoop_exhaust env apiPrefixes (fun p hp => (hall p hp).1) (fun p hp => (hall p hp).2)
  · intro ps1 p ps2 e hps h1 hp
    unfold getAPIprefix
    rw [hps]
    exact probeLoop_crash_after env ps1 p ps2 e h1 hp
  · intro ps1 p ps2 hps h1 hp
    unfold getAPIprefix
    rw [hps]
    exact probeLoop_first_success env ps1 p ps2 h1 hp

/-- C2 (counterexample): when the probe of the first candidate raises a
transport error, getAPIprefix propagates the unhandled exception (crash)
instead of exiting with the no-functioning-API message. -/
theorem c2_counterexample :
    getAPIprefix envProbeCrash =
      ([.probe "https://lookup.dbpedia.org/api/search/PrefixSearch?QueryString=Antwerp"],
        .crash "URLError: connection refused") ∧
    (PyResult.crash "URLError: connection refused" : PyResult String) ≠
      .exit "No functioning DBpedia lookup API found!" := by
  decide

/-- C2 witness: the exhaustion branch on an all-404 environment, the
mid-list crash branch on an environment whose third candidate raises
after two 404 responses, and the first-success branch on an all-200
environment. -/
theorem c2_probe_behaviour_witness :
    getAPIprefix env404 = (apiPrefixes.map fun p => .probe (p ++ "Antwerp"),
      .exit "No functioning DBpedia lookup API found!") ∧
    getAPIprefix envMidCrash =
      ((["https://lookup.dbpedia.org/api/search/PrefixSearch?QueryString=",
         "http://lookup.dbpedia.org/api/search/PrefixSearch?QueryString="].map fun q =>
          .probe (q ++ "Antwerp")) ++
        [.probe ("https://lookup.dbpedia.org/api/prefix?query=" ++ "Antwerp")],
        .crash "URLError: connection refused") ∧
    getAPIprefix envFilm =
      ([.probe ("https://lookup.dbpedia.org/api/search/PrefixSearch?QueryString=" ++ "Antwerp")],
        .ok "https://lookup.dbpedia.org/api/search/PrefixSearch?QueryString=") := by
  refine ⟨(c2_probe_behaviour env404).1 (by decide), ?_, ?_⟩
  · exact (c2_probe_behaviour envMidCrash).2.1
      ["https://lookup.dbpedia.org/api/search/PrefixSearch?QueryString=",
       "http://lookup.dbpedia.org/api/search/PrefixSearch?QueryString="]
      "https://lookup.dbpedia.org/api/prefix?query="
      ["http://lookup.dbpedia.org/api/prefix?query=",
       "http://akswnc7.informatik.uni-leipzig.de/lookup/api/search?query="]
      "URLError: connection refused" rfl (by decide) (by decide)
  · have h := (c2_probe_behaviour envFilm).2.2 []
      "https://lookup.dbpedia.org/api/search/PrefixSearch?QueryString="
      ["http://lookup.dbpedia.org/api/search/PrefixSearch?QueryString=",
       "https://lookup.dbpedia.org/api/prefix?query=",
       "http://lookup.dbpedia.org/api/prefix?query=",
       "http://akswnc7.informatik.uni-leipzig.de/lookup/api/search?query="]
      rfl (by simp) rfl
    simpa using h

/-- C4 (counterexample): for a metadata document with the author predicate
absent, a line is printed for the resource-identifier field, namely the
plain line - AUTHOR_RESOURCE: not found, contradicting the claim that no
line at all is printed for it. -/
theorem c4_counterexample :
    extract_metadata_core [] = .ok initMeta ∧
    "- AUTHOR_RESOURCE: not found" ∈ display_results (metaDict initMeta) := by
  decide

theorem foldAuthor_fields (objs : List JObj) : ∀ st st' : Meta, foldAuthor st objs = .ok st' →
    st'.publisher = st.publisher ∧ st'.publisher_uri = st.publisher_uri ∧
    st'.pubdate = st.pubdate ∧ st'.pages = st.pages ∧ st'.genre = st.genre ∧
    st'.abstract = st.abstract := by
  induction objs with
  | nil =>
    intro st st' h
    simp only [foldAuthor, PyResult.ok.injEq] at h
    subst h
    exact ⟨rfl, rfl, rfl, rfl, rfl, rfl⟩
  | cons o os ih =>
    intro st st' h
    simp only [foldAuthor] at h
    rcases hg : pyDictGet o "value" with _ | w
    · simp only [hg] at h
      exact PyResult.noConfusion h
    · simp only [hg] at h
      have t := ih _ _ h
      exact t

theorem foldPublisher_fields (objs : List JObj) : ∀ st st' : Meta, foldPublisher st objs = .ok st' →
    st'.author = st.author ∧ st'.author_uri = st.author_uri ∧
    st'.pubdate = st.pubdate ∧ st'.pages = st.pages ∧ st'.genre = st.genre ∧
    st'.abstract = st.abstract := by
  induction objs with
  | nil =>
    intro st st' h
    simp only [foldPublisher, PyResult.ok.injEq] at h
    subst h
    exact ⟨rfl, rfl, rfl, rfl, rfl, rfl⟩
  | cons o os ih =>
    intro st st' h
    simp only [foldPublisher] at h
    rcases hg : pyDictGet o "value" with _ | w
    · simp only [hg] at h
      exact PyResult.noConfusion h
    · simp only [hg] at h
      have t := ih _ _ h
      exact t

theorem foldDate_fields (objs : List JObj) : ∀ st st' : Meta, foldDate st objs = .ok st' →
    st'.author = st.author ∧ st'.author_uri = st.author_uri ∧
    st'.publisher = st.publisher ∧ st'.publisher_uri = st.publisher_uri ∧
    st'.pages = st.pages ∧ st'.genre = st.genre ∧ st'.abstract = st.abstract := by
  induction objs with
  | nil =>
    intro st st' h
    simp only [foldDate, PyResult.ok.injEq] at h
    subst h
    exact ⟨rfl, rfl, rfl, rfl, rfl, rfl, rfl⟩
  | cons o os ih =>
    intro st st' h
    simp only [foldDate] at h
    rcases hg : pyDictGet o "value" with _ | w
    · simp only [hg] at h
      exact PyResult.noConfusion h
    · simp only [hg] at h
      have t := ih _ _ h
      exact t

theorem foldPages_fields (objs : List JObj) : ∀ st st' : Meta, foldPages st objs = .ok st' →
    st'.author = st.author ∧ st'.author_uri = st.author_uri ∧
    st'.publisher = st.publisher ∧ st'.publisher_uri = st.publisher_uri ∧
    st'.pubdate = st.pubdate ∧ st'.genre = st.genre ∧ st'.abstract = st.abstract := by
  induction objs with
  | nil =>
    intro st st' h
    simp only [foldPages, PyResult.ok.injEq] at h
    subst h
    exact ⟨rfl, rfl, rfl, rfl, rfl, rfl, rfl⟩
  | cons o os ih =>
    intro st st' h
    simp only [foldPages] at h
    rcases hg : pyDictGet o "value" with _ | w
    · simp only [hg] at h
      exact PyResult.noConfusion h
    · simp only [hg] at h
      have t := ih _ _ h
      exact t

theorem foldGenre_fields (objs : List JObj) : ∀ st st' : Meta, foldGenre st objs = .ok st' →
    st'.author = st.author ∧ st'.author_uri = st.author_uri ∧
    st'.publisher = st.publisher ∧ st'.publisher_uri = st.publisher_uri ∧
    st'.pubdate = st.pubdate ∧ st'.pages = st.pages ∧ st'.abstract = st.abstract := by
  induction objs with
  | nil =>
    intro st st' h
    simp only [foldGenre, PyResult.ok.injEq] at h
    subst h
    exact ⟨rfl, rfl, rfl, rfl, rfl, rfl, rfl⟩
  | cons o os ih =>
    intro st st' h
    simp only [foldGenre] at h
    rcases hg : pyDictGet o "value" with _ | w
    · simp only [hg] at h
      exact PyResult.noConfusion h
    · simp only [hg] at h
      have t := ih _ _ h
      exact t

theorem foldAbstractObj_fields (o : JObj) (entries : List (String × String)) :
    ∀ st st' : Meta, foldAbstractObj o st entries = .ok st' →
    st'.author = st.author ∧ st'.author_uri = st.author_uri ∧
    st'.publisher = st.publisher ∧ st'.publisher_uri = st.publisher_uri ∧
    st'.pubdate = st.pubdate ∧ st'.pages = st.pages ∧ st'.genre = st.genre := by
  induction entries with
  | nil =>
    intro st st' h
    simp only [foldAbstractObj, PyResult.ok.injEq] at h
    subst h
    exact ⟨rfl, rfl, rfl, rfl, rfl, rfl, rfl⟩
  | cons kv rest ih =>
    intro st st' h
    rcases kv with ⟨k, v⟩
    simp only [foldAbstractObj] at h
    by_cases hv : v = "en"
    · rw [if_pos hv] at h
      rcases hg : pyDictGet o "value" with _ | x
      · simp only [hg] at h
        exact PyResult.noConfusion h
      · simp only [hg] at h
        have t := ih _ _ h
        exact t
    · rw [if_neg hv] at h
      exact ih _ _ h

theorem foldAbstract_fields (objs : List JObj) : ∀ st st' : Meta, foldAbstract st objs = .ok st' →
    st'.author = st.author ∧ st'.author_uri = st.author_uri ∧
    st'.publisher = st.publisher ∧ st'.publisher_uri = st.publisher_uri ∧
    st'.pubdate = st.pubdate ∧ st'.pages = st.pages ∧ st'.genre = st.genre := by
  induction objs with
  | nil =>
    intro st st' h
    simp only [foldAbstract, PyResult.ok.injEq] at h
    subst h
    exact ⟨rfl, rfl, rfl, rfl, rfl, rfl, rfl⟩
  | cons o os ih =>
    intro st st' h
    simp only [foldAbstract] at h
    rcases ho : foldAbstractObj o st o with st1 | m | e
    · simp only [ho] at h
      have t1 := foldAbstractObj_fields o o st st1 ho
      have t2 := ih st1 st' h
      exact ⟨t2.1.trans t1.1, t2.2.1.trans t1.2.1, t2.2.2.1.trans t1.2.2.1,
        t2.2.2.2.1.trans t1.2.2.2.1, t2.2.2.2.2.1.trans t1.2.2.2.2.1,
        t2.2.2.2.2.2.1.trans t1.2.2.2.2.2.1, t2.2.2.2.2.2.2.trans t1.2.2.2.2.2.2⟩
    · simp only [ho] at h
      exact PyResult.noConfusion h
    · simp only [ho] at h
      exact PyResult.noConfusion h

theorem procPred_absent (st : Meta) (r : String) (objs : List JObj) (st' : Meta)
    (h : procPred st r objs = .ok st') :
    (r ≠ AUTHOR_ID → st'.author = st.author ∧ st'.author_uri = st.author_uri) ∧
    (r ≠ PUBLISHER_ID → st'.publisher = st.publisher ∧ st'.publisher_uri = st.publisher_uri) ∧
    (r ≠ PUBLICATIONDATE_ID → st'.pubdate = st.pubdate) ∧
    (r ≠ PAGES_ID → st'.pages = st.pages) ∧
    (r ≠ GENRE_ID → st'.genre = st.genre) ∧
    (r ≠ ABSTRACT_ID → st'.abstract = st.abstract) := by
  unfold procPred at h
  by_cases h1 : r = AUTHOR_ID
  · rw [if_pos h1] at h
    have t := foldAuthor_fields objs st st' h
    exact ⟨fun hc => absurd h1 hc, fun _ => ⟨t.1, t.2.1⟩, fun _ => t.2.2.1,
      fun _ => t.2.2.2.1, fun _ => t.2.2.2.2.1, fun _ => t.2.2.2.2.2⟩
  · rw [if_neg h1] at h
    by_cases h2 : r = PUBLISHER_ID
    · rw [if_pos h2] at h
      have t := foldPublisher_fields objs st st' h
      exact ⟨fun _ => ⟨t.1, t.2.1⟩, fun hc => absurd h2 hc, fun _ => t.2.2.1,
        fun _ => t.2.2.2.1, fun _ => t.2.2.2.2.1, fun _ => t.2.2.2.2.2⟩
    · rw [if_neg h2] at h
      by_cases h3 : r = PUBLICATIONDATE_ID
      · rw [if_pos h3] at h
        have t := foldDate_fields objs st st' h
        exact ⟨fun _ => ⟨t.1, t.2.1⟩, fun _ => ⟨t.2.2.1, t.2.2.2.1⟩, fun hc => absurd h3 hc,
          fun _ => t.2.2.2.2.1, fun _ => t.2.2.2.2.2.1, fun _ => t.2.2.2.2.2.2⟩
      · rw [if_neg h3] at h
        by_cases h4 : r = PAGES_ID
        · rw [if_pos h4] at h
          have t := foldPages_fields objs st st' h
          exact ⟨fun _ => ⟨t.1, t.2.1⟩, fun _ => ⟨t.2.2.1, t.2.2.2.1⟩, fun _ => t.2.2.2.2.1,
            fun hc => absurd h4 hc, fun _ => t.2.2.2.2.2.1, fun _ => t.2.2.2.2.2.2⟩
        · rw [if_neg h4] at h
          by_cases h5 : r = GENRE_ID
          · rw [if_pos h5] at h
            have t := foldGenre_fields objs st st' h
            exact ⟨fun _ => ⟨t.1, t.2.1⟩, fun _ => ⟨t.2.2.1, t.2.2.2.1⟩, fun _ => t.2.2.2.2.1,
              fun _ => t.2.2.2.2.2.1, fun hc => absurd h5 hc, fun _ => t.2.2.2.2.2.2⟩
          · rw [if_neg h5] at h
            by_cases h6 : r = ABSTRACT_ID
            · rw [if_pos h6] at h
              have t := foldAbstract_fields objs st st' h
              exact ⟨fun _ => ⟨t.1, t.2.1⟩, fun _ => ⟨t.2.2.1, t.2.2.2.1⟩, fun _ => t.2.2.2.2.1,
                fun _ => t.2.2.2.2.2.1, fun _ => t.2.2.2.2.2.2, fun hc => absurd h6 hc⟩
            · rw [if_neg h6] at h
              simp only [PyResult.ok.injEq] at h
              subst h
              exact ⟨fun _ => ⟨rfl, rfl⟩, fun _ => ⟨rfl, rfl⟩, fun _ => rfl,
                fun _ => rfl, fun _ => rfl, fun _ => rfl⟩

theorem procPreds_append (xs ys : JPred) : ∀ st : Meta, procPreds st (xs ++ ys) =
    match procPreds st xs with
    | .ok st1 => procPreds st1 ys
    | .exit m => .exit m
    | .crash e => .crash e := by
  induction xs with
  | nil => intro st; rfl
  | cons pr xs ih =>
    intro st
    rcases pr with ⟨r, objs⟩
    simp only [List.cons_append, procPreds]
    rcases hp : procPred st r objs with st1 | m | e
    · exact ih st1
    · rfl
    · rfl

theorem procPreds_absent (preds : JPred) : ∀ st st' : Meta, procPreds st preds = .ok st' →
    ((∀ pr ∈ preds, pr.1 ≠ AUTHOR_ID) →
      st'.author = st.author ∧ st'.author_uri = st.author_uri) ∧
    ((∀ pr ∈ preds, pr.1 ≠ PUBLISHER_ID) →
      st'.publisher = st.publisher ∧ st'.publisher_uri = st.publisher_uri) ∧
    ((∀ pr ∈ preds, pr.1 ≠ PUBLICATIONDATE_ID) → st'.pubdate = st.pubdate) ∧
    ((∀ pr ∈ preds, pr.1 ≠ PAGES_ID) → st'.pages = st.pages) ∧
    ((∀ pr ∈ preds, pr.1 ≠ GENRE_ID) → st'.genre = st.genre) ∧
    ((∀ pr ∈ preds, pr.1 ≠ ABSTRACT_ID) → st'.abstract = st.abstract) := by
  induction preds with
  | nil =>
    intro st st' h
    simp only [procPreds, PyResult.ok.injEq] at h
    subst h
    exact ⟨fun _ => ⟨rfl, rfl⟩, fun _ => ⟨rfl, rfl⟩, fun _ => rfl, fun _ => rfl,
      fun _ => rfl, fun _ => rfl⟩
  | cons pr rest ih =>
    intro st st' h
    rcases pr with ⟨r, objs⟩
    simp only [procPreds] at h
    rcases hp : procPred st r objs with st1 | m | e
    · rw [hp] at h
      have t1 := procPred_absent st r objs st1 hp
      have t2 := ih st1 st' h
      refine ⟨fun hall => ?_, fun hall => ?_, fun hall => ?_, fun hall => ?_,
        fun hall => ?_, fun hall => ?_⟩
      · have hr := hall (r, objs) (by simp)
        have e2 := t2.1 fun q hq => hall q (by simp [hq])
        have e1 := t1.1 hr
        exact ⟨e2.1.trans e1.1, e2.2.trans e1.2⟩
      · have hr := hall (r, objs) (by simp)
        have e2 := t2.2.1 fun q hq => hall q (by simp [hq])
        have e1 := t1.2.1 hr
        exact ⟨e2.1.trans e1.1, e2.2.trans e1.2⟩
      · have hr := hall (r, objs) (by simp)
        have e2 := t2.2.2.1 fun q hq => hall q (by simp [hq])
        exact e2.trans (t1.2.2.1 hr)
      · have hr := hall (r, objs) (by simp)
        have e2 := t2.2.2.2.1 fun q hq => hall q (by simp [hq])
        exact e2.trans (t1.2.2.2.1 hr)
      · have hr := hall (r, objs) (by simp)
        have e2 := t2.2.2.2.2.1 fun q hq => hall q (by simp [hq])
        exact e2.trans (t1.2.2.2.2.1 hr)
      · have hr := hall (r, objs) (by simp)
        have e2 := t2.2.2.2.2.2 fun q hq => hall q (by simp [hq])
        exact e2.trans (t1.2.2.2.2.2 hr)
    · rw [hp] at h
      exact PyResult.noConfusion h
    · rw [hp] at h
      exact PyResult.noConfusion h

theorem procDoc_append (xs ys : JDoc) : ∀ st : Meta, procDoc st (xs ++ ys) =
    match procDoc st xs with
    | .ok st1 => procDoc st1 ys
    | .exit m => .exit m
    | .crash e => .crash e := by
  induction xs with
  | nil => intro st; rfl
  | cons ev xs ih =>
    intro st
    rcases ev with ⟨k, preds⟩
    simp only [List.cons_append, procDoc]
    rcases hp : procPreds st preds with st1 | m | e
    · exact ih st1
    · rfl
    · rfl

theorem procDoc_absent (doc : JDoc) : ∀ st st' : Meta, procDoc st doc = .ok st' →
    (predAbsent doc AUTHOR_ID → st'.author = st.author ∧ st'.author_uri = st.author_uri) ∧
    (predAbsent doc PUBLISHER_ID →
      st'.publisher = st.publisher ∧ st'.publisher_uri = st.publisher_uri) ∧
    (predAbsent doc PUBLICATIONDATE_ID → st'.pubdate = st.pubdate) ∧
    (predAbsent doc PAGES_ID → st'.pages = st.pages) ∧
    (predAbsent doc GENRE_ID → st'.genre = st.genre) ∧
    (predAbsent doc ABSTRACT_ID → st'.abstract = st.abstract) := by
  induction doc with
  | nil =>
    intro st st' h
    simp only [procDoc, PyResult.ok.injEq] at h
    subst h
    exact ⟨fun _ => ⟨rfl, rfl⟩, fun _ => ⟨rfl, rfl⟩, fun _ => rfl, fun _ => rfl,
      fun _ => rfl, fun _ => rfl⟩
  | cons ev rest ih =>
    intro st st' h
    rcases ev with ⟨k, preds⟩
    simp only [procDoc] at h
    rcases hp : procPreds st preds with st1 | m | e
    · rw [hp] at h
      have t1 := procPreds_absent preds st st1 hp
      have t2 := ih st1 st' h
      refine ⟨fun hall => ?_, fun hall => ?_, fun hall => ?_, fun hall => ?_,
        fun hall => ?_, fun hall => ?_⟩
      · have hh := hall (k, preds) (by simp)
        have e2 := t2.1 fun q hq => hall q (by simp [hq])
        have e1 := t1.1 hh
        exact ⟨e2.1.trans e1.1, e2.2.trans e1.2⟩
      · have hh := hall (k, preds) (by simp)
        have e2 := t2.2.1 fun q hq => hall q (by simp [hq])
        have e1 := t1.2.1 hh
        exact ⟨e2.1.trans e1.1, e2.2.trans e1.2⟩
      · have hh := hall (k, preds) (by simp)
        have e2 := t2.2.2.1 fun q hq => hall q (by simp [hq])
        exact e2.trans (t1.2.2.1 hh)
      · have hh := hall (k, preds) (by simp)
        have e2 := t2.2.2.2.1 fun q hq => hall q (by simp [hq])
        exact e2.trans (t1.2.2.2.1 hh)
      · have hh := hall (k, preds) (by simp)
        have e2 := t2.2.2.2.2.1 fun q hq => hall q (by simp [hq])
        exact e2.trans (t1.2.2.2.2.1 hh)
      · have hh := hall (k, preds) (by simp)
        have e2 := t2.2.2.2.2.2 fun q hq => hall q (by simp [hq])
        exact e2.trans (t1.2.2.2.2.2 hh)
    · rw [hp] at h
      exact PyResult.noConfusion h
    · rw [hp] at h
      exact PyResult.noConfusion h

theorem display_metaDict (m : Meta) : display_results (metaDict m) =
    ["- AUTHOR: " ++ m.author,
     if m.author_uri ≠ "not found" then "-> for more info see " ++ m.author_uri
       else "- AUTHOR_RESOURCE: " ++ m.author_uri,
     "- PUBLISHER: " ++ m.publisher,
     if m.publisher_uri ≠ "not found" then "-> for more info see " ++ m.publisher_uri
       else "- PUBLISHER_RESOURCE: " ++ m.publisher_uri,
     "- PUBLICATION DATE: " ++ m.pubdate,
     "- NUMBER OF PAGES: " ++ m.pages,
     "- GENRE: " ++ m.genre,
     "- ABSTRACT: \n" ++ m.abstract] := by
  simp only [display_results, metaDict, List.map_cons, List.map_nil]
  rw [if_neg (fun hc : pyEndsWith "AUTHOR" "RESOURCE" = true ∧ _ => absurd hc.1 (by decide)),
    if_neg (show ¬("AUTHOR" = "ABSTRACT") by decide),
    if_neg (fun hc : pyEndsWith "PUBLISHER" "RESOURCE" = true ∧ _ => absurd hc.1 (by decide)),
    if_neg (show ¬("PUBLISHER" = "ABSTRACT") by decide),
    if_neg (fun hc : pyEndsWith "PUBLICATION DATE" "RESOURCE" = true ∧ _ =>
      absurd hc.1 (by decide)),
    if_neg (show ¬("PUBLICATION DATE" = "ABSTRACT") by decide),
    if_neg (fun hc : pyEndsWith "NUMBER OF PAGES" "RESOURCE" = true ∧ _ =>
      absurd hc.1 (by decide)),
    if_neg (show ¬("NUMBER OF PAGES" = "ABSTRACT") by decide),
    if_neg (fun hc : pyEndsWith "GENRE" "RESOURCE" = true ∧ _ => absurd hc.1 (by decide)),
    if_neg (show ¬("GENRE" = "ABSTRACT") by decide),
    if_neg (fun hc : pyEndsWith "ABSTRACT" "RESOURCE" = true ∧ _ => absurd hc.1 (by decide))]
  have e1 : pyEndsWith "AUTHOR_RESOURCE" "RESOURCE" = true := by decide
  have e2 : pyEndsWith "PUBLISHER_RESOURCE" "RESOURCE" = true := by decide
  simp only [e1, e2, true_and, if_true]
  simp

/-- C4 (amended): for every metadata document in which a predicate is
absent, the extracted value for that predicate is the sentinel not found
and its line is rendered in the plain labelled form; the auxiliary
resource-identifier fields also print a plain line when absent, and the
for-more-info-see form appears exactly when the value was found. -/
theorem c4_absent_fields (doc : JDoc) (m : Meta) (h : extract_metadata_core doc = .ok m) :
    (predAbsent doc AUTHOR_ID → m.author = "not found" ∧ m.author_uri = "not found" ∧
      "- AUTHOR: not found" ∈ display_results (metaDict m) ∧
      "- AUTHOR_RESOURCE: not found" ∈ display_results (metaDict m)) ∧
    (predAbsent doc PUBLISHER_ID → m.publisher = "not found" ∧ m.publisher_uri = "not found" ∧
      "- PUBLISHER: not found" ∈ display_results (metaDict m) ∧
      "- PUBLISHER_RESOURCE: not found" ∈ display_results (metaDict m)) ∧
    (predAbsent doc PUBLICATIONDATE_ID → m.pubdate = "not found" ∧
      "- PUBLICATION DATE: not found" ∈ display_results (metaDict m)) ∧
    (predAbsent doc PAGES_ID → m.pages = "not found" ∧
      "- NUMBER OF PAGES: not found" ∈ display_results (metaDict m)) ∧
    (predAbsent doc GENRE_ID → m.genre = "not found" ∧
      "- GENRE: not found" ∈ display_results (metaDict m)) ∧
    (predAbsent doc ABSTRACT_ID → m.abstract = "not found" ∧
      "- ABSTRACT: \nnot found" ∈ display_results (metaDict m)) ∧
    (display_results (metaDict m))[1]? =
      some (if m.author_uri ≠ "not found" then "-> for more info see " ++ m.author_uri
        else "- AUTHOR_RESOURCE: " ++ m.author_uri) ∧
    (display_results (metaDict m))[3]? =
      some (if m.publisher_uri ≠ "not found" then "-> for more info see " ++ m.publisher_uri
        else "- PUBLISHER_RESOURCE: " ++ m.publisher_uri) := by
  have t := procDoc_absent doc initMeta m h
  refine ⟨fun hab => ?_, fun hab => ?_, fun hab => ?_, fun hab => ?_, fun hab => ?_,
    fun hab => ?_, ?_, ?_⟩
  · obtain ⟨ha, hu⟩ := t.1 hab
    refine ⟨ha, hu, ?_, ?_⟩
    · rw [display_metaDict, ha]
      simp [initMeta]
    · rw [display_metaDict, hu]
      simp [initMeta]
  · obtain ⟨ha, hu⟩ := t.2.1 hab
    refine ⟨ha, hu, ?_, ?_⟩
    · rw [display_metaDict, ha]
      simp [initMeta]
    · rw [display_metaDict, hu]
      simp [initMeta]
  · have ha := t.2.2.1 hab
    refine ⟨ha, ?_⟩
    rw [display_metaDict, ha]
    simp [initMeta]
  · have ha := t.2.2.2.1 hab
    refine ⟨ha, ?_⟩
    rw [display_metaDict, ha]
    simp [initMeta]
  · have ha := t.2.2.2.2.1 hab
    refine ⟨ha, ?_⟩
    rw [display_metaDict, ha]
    simp [initMeta]
  · have ha := t.2.2.2.2.2 hab
    refine ⟨ha, ?_⟩
    rw [display_metaDict, ha]
    simp [initMeta]
  · rw [display_metaDict]
    rfl
  · rw [display_metaDict]
    rfl

/-- C4 witness: a document carrying only a publisher leaves all author
fields at the sentinel and prints their plain lines. -/
theorem c4_absent_fields_witness :
    metaChilton.author = "not found" ∧
    metaChilton.author_uri = "not found" ∧
    "- AUTHOR: not found" ∈ display_results (metaDict metaChilton) ∧
    "- AUTHOR_RESOURCE: not found" ∈ display_results (metaDict metaChilton) :=
  (c4_absent_fields
    [("e", [(PUBLISHER_ID, [[("value", "http://dbpedia.org/resource/Chilton_Books")]])])]
    metaChilton (by decide)).1 (by decide)

theorem lastValue_cons_cons (o o2 : JObj) (os : List JObj) :
    lastValue (o :: o2 :: os) = lastValue (o2 :: os) := by
  simp [lastValue, List.getLast?_cons_cons]

theorem foldAuthor_last (objs : List JObj) : ∀ (st st' : Meta) (v : String),
    foldAuthor st objs = .ok st' → lastValue objs = some v →
    st'.author_uri = v ∧ st'.author = pathLabel v := by
  induction objs with
  | nil => intro st st' v _ hv; simp [lastValue] at hv
  | cons o os ih =>
    intro st st' v h hv
    simp only [foldAuthor] at h
    rcases hg : pyDictGet o "value" with _ | w
    · simp only [hg] at h
      exact PyResult.noConfusion h
    · simp only [hg] at h
      rcases os with _ | ⟨o2, os'⟩
      · simp only [foldAuthor, PyResult.ok.injEq] at h
        subst h
        simp only [lastValue, List.getLast?_singleton, Option.some_bind, hg,
          Option.some.injEq] at hv
        subst hv
        exact ⟨rfl, rfl⟩
      · rw [lastValue_cons_cons] at hv
        exact ih _ _ _ h hv

theorem foldPublisher_last (objs : List JObj) : ∀ (st st' : Meta) (v : String),
    foldPublisher st objs = .ok st' → lastValue objs = some v →
    st'.publisher_uri = v ∧ st'.publisher = pathLabel v := by
  induction objs with
  | nil => intro st st' v _ hv; simp [lastValue] at hv
  | cons o os ih =>
    intro st st' v h hv
    simp only [foldPublisher] at h
    rcases hg : pyDictGet o "value" with _ | w
    · simp only [hg] at h
      exact PyResult.noConfusion h
    · simp only [hg] at h
      rcases os with _ | ⟨o2, os'⟩
      · simp only [foldPublisher, PyResult.ok.injEq] at h
        subst h
        simp only [lastValue, List.getLast?_singleton, Option.some_bind, hg,
          Option.some.injEq] at hv
        subst hv
        exact ⟨rfl, rfl⟩
      · rw [lastValue_cons_cons] at hv
        exact ih _ _ _ h hv

theorem foldDate_last (objs : List JObj) : ∀ (st st' : Meta) (v : String),
    foldDate st objs = .ok st' → lastValue objs = some v → st'.pubdate = v := by
  induction objs with
  | nil => intro st st' v _ hv; simp [lastValue] at hv
  | cons o os ih =>
    intro st st' v h hv
    simp only [foldDate] at h
    rcases hg : pyDictGet o "value" with _ | w
    · simp only [hg] at h
      exact PyResult.noConfusion h
    · simp only [hg] at h
      rcases os with _ | ⟨o2, os'⟩
      · simp only [foldDate, PyResult.ok.injEq] at h
        subst h
        simp only [lastValue, List.getLast?_singleton, Option.some_bind, hg,
          Option.some.injEq] at hv
        subst hv
        rfl
      · rw [lastValue_cons_cons] at hv
        exact ih _ _ _ h hv

theorem foldPages_last (objs : List JObj) : ∀ (st st' : Meta) (v : String),
    foldPages st objs = .ok st' → lastValue objs = some v → st'.pages = v := by
  induction objs with
  | nil => intro st st' v _ hv; simp [lastValue] at hv
  | cons o os ih =>
    intro st st' v h hv
    simp only [foldPages] at h
    rcases hg : pyDictGet o "value" with _ | w
    · simp only [hg] at h
      exact PyResult.noConfusion h
    · simp only [hg] at h
      rcases os with _ | ⟨o2, os'⟩
      · simp only [foldPages, PyResult.ok.injEq] at h
        subst h
        simp only [lastValue, List.getLast?_singleton, Option.some_bind, hg,
          Option.some.injEq] at hv
        subst hv
        rfl
      · rw [lastValue_cons_cons] at hv
        exact ih _ _ _ h hv

theorem foldGenre_last (objs : List JObj) : ∀ (st st' : Meta) (v : String),
    foldGenre st objs = .ok st' → lastValue objs = some v → st'.genre = pathLabel v := by
  induction objs with
  | nil => intro st st' v _ hv; simp [lastValue] at hv
  | cons o os ih =>
    intro st st' v h hv
    simp only [foldGenre] at h
    rcases hg : pyDictGet o "value" with _ | w
    · simp only [hg] at h
      exact PyResult.noConfusion h
    · simp only [hg] at h
      rcases os with _ | ⟨o2, os'⟩
      · simp only [foldGenre, PyResult.ok.injEq] at h
        subst h
        simp only [lastValue, List.getLast?_singleton, Option.some_bind, hg,
          Option.some.injEq] at hv
        subst hv
        rfl
      · rw [lastValue_cons_cons] at hv
        exact ih _ _ _ h hv

theorem extract_core_split (pre post : JDoc) (ek : String) (a b : JPred)
    (pid : String) (objs : List JObj) (m : Meta)
    (hok : extract_metadata_core (pre ++ (ek, a ++ (pid, objs) :: b) :: post) = .ok m) :
    ∃ st1 sa sb st2, procDoc initMeta pre = .ok st1 ∧ procPreds st1 a = .ok sa ∧
      procPred sa pid objs = .ok sb ∧ procPreds sb b = .ok st2 ∧
      procDoc st2 post = .ok m := by
  unfold extract_metadata_core at hok
  rw [procDoc_append] at hok
  rcases h1 : procDoc initMeta pre with st1 | m1 | e1 <;> simp only [h1] at hok
  · simp only [procDoc] at hok
    rcases h2 : procPreds st1 (a ++ (pid, objs) :: b) with s2 | m2 | e2 <;>
      simp only [h2] at hok
    · rw [procPreds_append] at h2
      rcases h3 : procPreds st1 a with sa | m3 | e3 <;> simp only [h3] at h2
      · simp only [procPreds] at h2
        rcases h4 : procPred sa pid objs with sb | m4 | e4 <;> simp only [h4] at h2
        · refine ⟨st1, sa, sb, s2, ?_, ?_, ?_, ?_, ?_⟩
          · rfl
          · exact h3
          · exact h4
          · exact h2
          · exact hok
        · exact PyResult.noConfusion h2
        · exact PyResult.noConfusion h2
      · exact PyResult.noConfusion h2
      · exact PyResult.noConfusion h2
    · exact PyResult.noConfusion hok
    · exact PyResult.noConfusion hok
  · exact PyResult.noConfusion hok
  · exact PyResult.noConfusion hok

/-- C5: when the author, publisher, publication date, page count or genre
predicate carries several value objects, the extracted value is the last
matching object's value field (last-write-wins); for author, publisher
and genre the displayed label is the final path segment of that value
with underscores replaced by spaces. -/
theorem c5_last_write_wins (pid : String)
    (hpid : pid ∈ [AUTHOR_ID, PUBLISHER_ID, PUBLICATIONDATE_ID, PAGES_ID, GENRE_ID])
    (pre post : JDoc) (ek : String) (preds : JPred) (objs : List JObj) (m : Meta) (v : String)
    (hmem : (pid, objs) ∈ preds) (hnodup : (preds.map Prod.fst).Nodup)
    (habs : predAbsent post pid)
    (hok : extract_metadata_core (pre ++ (ek, preds) :: post) = .ok m)
    (hv : lastValue objs = some v) :
    (pid = AUTHOR_ID → m.author_uri = v ∧ m.author = pathLabel v) ∧
    (pid = PUBLISHER_ID → m.publisher_uri = v ∧ m.publisher = pathLabel v) ∧
    (pid = PUBLICATIONDATE_ID → m.pubdate = v) ∧
    (pid = PAGES_ID → m.pages = v) ∧
    (pid = GENRE_ID → m.genre = pathLabel v) := by
  obtain ⟨a, b, hpreds⟩ := List.append_of_mem hmem
  subst hpreds
  have hnb : pid ∉ b.map Prod.fst := by
    simp only [List.map_append, List.map_cons] at hnodup
    exact (List.nodup_cons.mp (List.Nodup.of_append_right hnodup)).1
  have hb : ∀ pr ∈ b, pr.1 ≠ pid := by
    intro pr hpr hc
    exact hnb (List.mem_map.mpr ⟨pr, hpr, hc⟩)
  obtain ⟨st1, sa, sb, st2, h1, h2, h3, h4, h5⟩ :=
    extract_core_split pre post ek a b pid objs m hok
  have tb := procPreds_absent b sb st2 h4
  have tp := procDoc_absent post st2 m h5
  simp only [List.mem_cons, List.mem_singleton, List.not_mem_nil, or_false] at hpid
  rcases hpid with rfl | rfl | rfl | rfl | rfl
  · refine ⟨fun _ => ?_, fun hc => absurd hc (by decide), fun hc => absurd hc (by decide),
      fun hc => absurd hc (by decide), fun hc => absurd hc (by decide)⟩
    unfold procPred at h3
    rw [if_pos rfl] at h3
    have t := foldAuthor_last objs sa sb v h3 hv
    have eb := tb.1 hb
    have ep := tp.1 habs
    exact ⟨(ep.2.trans eb.2).trans t.1, (ep.1.trans eb.1).trans t.2⟩
  · refine ⟨fun hc => absurd hc.symm (by decide), fun _ => ?_, fun hc => absurd hc (by decide),
      fun hc => absurd hc (by decide), fun hc => absurd hc (by decide)⟩
    unfold procPred at h3
    rw [if_neg (by decide), if_pos rfl] at h3
    have t := foldPublisher_last objs sa sb v h3 hv
    have eb := tb.2.1 hb
    have ep := tp.2.1 habs
    exact ⟨(ep.2.trans eb.2).trans t.1, (ep.1.trans eb.1).trans t.2⟩
  · refine ⟨fun hc => absurd hc.symm (by decide), fun hc => absurd hc.symm (by decide),
      fun _ => ?_, fun hc => absurd hc (by decide), fun hc => absurd hc (by decide)⟩
    unfold procPred at h3
    rw [if_neg (by decide), if_neg (by decide), if_pos rfl] at h3
    have t := foldDate_last objs sa sb v h3 hv
    have eb := tb.2.2.1 hb
    have ep := tp.2.2.1 habs
    exact (ep.trans eb).trans t
  · refine ⟨fun hc => absurd hc.symm (by decide), fun hc => absurd hc.symm (by decide),
      fun hc => absurd hc.symm (by decide), fun _ => ?_, fun hc => absurd hc (by decide)⟩
    unfold procPred at h3
    rw [if_neg (by decide), if_neg (by decide), if_neg (by decide), if_pos rfl] at h3
    have t := foldPages_last objs sa sb v h3 hv
    have eb := tb.2.2.2.1 hb
    have ep := tp.2.2.2.1 habs
    exact (ep.trans eb).trans t
  · refine ⟨fun hc => absurd hc.symm (by decide), fun hc => absurd hc.symm (by decide),
      fun hc => absurd hc.symm (by decide), fun hc => absurd hc.symm (by decide), fun _ => ?_⟩
    unfold procPred at h3
    rw [if_neg (by decide), if_neg (by decide), if_neg (by decide), if_neg (by decide),
      if_pos rfl] at h3
    have t := foldGenre_last objs sa sb v h3 hv
    have eb := tb.2.2.2.2.1 hb
    have ep := tp.2.2.2.2.1 habs
    exact (ep.trans eb).trans t

/-- C5 witness: of two author values the second one wins and its label is
derived from the path segment. -/
theorem c5_last_write_wins_witness :
    metaHerbert.author_uri = "http://dbpedia.org/resource/Frank_Herbert" ∧
    metaHerbert.author = pathLabel "http://dbpedia.org/resource/Frank_Herbert" :=
  (c5_last_write_wins AUTHOR_ID (by decide) [] [] "e"
    [(AUTHOR_ID, [[("value", "http://dbpedia.org/resource/Kevin_J._Anderson")],
      [("value", "http://dbpedia.org/resource/Frank_Herbert")]])]
    [[("value", "http://dbpedia.org/resource/Kevin_J._Anderson")],
      [("value", "http://dbpedia.org/resource/Frank_Herbert")]]
    metaHerbert "http://dbpedia.org/resource/Frank_Herbert"
    (by decide) (by decide) (by decide) (by decide) (by decide)).1 rfl

theorem foldAbstractObj_noen (o : JObj) (entries : List (String × String))
    (h : ∀ kv ∈ entries, kv.2 ≠ "en") : ∀ st : Meta, foldAbstractObj o st entries = .ok st := by
  induction entries with
  | nil => intro st; rfl
  | cons kv rest ih =>
    intro st
    rcases kv with ⟨k, v⟩
    simp only [foldAbstractObj]
    rw [if_neg (h (k, v) (by simp))]
    exact ih (fun q hq => h q (by simp [hq])) st

theorem foldAbstractObj_trig (o : JObj) (entries : List (String × String)) (x : String)
    (hval : pyDictGet o "value" = some x) :
    ∀ st st' : Meta, foldAbstractObj o st entries = .ok st' →
    (∃ kv ∈ entries, kv.2 = "en") → st'.abstract = x := by
  induction entries with
  | nil =>
    intro st st' _ htr
    simp at htr
  | cons kv rest ih =>
    intro st st' h htr
    rcases kv with ⟨k, v⟩
    simp only [foldAbstractObj] at h
    by_cases hv : v = "en"
    · rw [if_pos hv] at h
      simp only [hval] at h
      by_cases hrest : ∃ kv ∈ rest, kv.2 = "en"
      · exact ih _ _ h hrest
      · push_neg at hrest
        rw [foldAbstractObj_noen o rest (fun q hq hc => hrest q hq hc)] at h
        simp only [PyResult.ok.injEq] at h
        subst h
        rfl
    · rw [if_neg hv] at h
      rcases htr with ⟨kv', hkv', hen⟩
      rcases List.mem_cons.mp hkv' with rfl | hmem
      · exact absurd hen hv
      · exact ih _ _ h ⟨kv', hmem, hen⟩

theorem foldAbstract_noen (objs : List JObj)
    (h : ∀ o ∈ objs, ∀ kv ∈ o, kv.2 ≠ "en") : ∀ st : Meta, foldAbstract st objs = .ok st := by
  induction objs with
  | nil => intro st; rfl
  | cons o os ih =>
    intro st
    simp only [foldAbstract]
    rw [foldAbstractObj_noen o o (h o (by simp))]
    exact ih (fun q hq => h q (by simp [hq])) st

theorem foldAbstract_append (xs ys : List JObj) : ∀ st : Meta, foldAbstract st (xs ++ ys) =
    match foldAbstract st xs with
    | .ok st1 => foldAbstract st1 ys
    | .exit m => .exit m
    | .crash e => .crash e := by
  induction xs with
  | nil => intro st; rfl
  | cons o xs ih =>
    intro st
    simp only [List.cons_append, foldAbstract]
    rcases ho : foldAbstractObj o st o with st1 | mm | e
    · exact ih st1
    · rfl
    · rfl

/-- C6 (amended): a value object of the abstract predicate is selected
whenever any of its fields equals en, the last such object winning with
its value field; if no object has any field equal to en the abstract
stays not found.  In the typical case where the en-tagged object is the
last one containing en anywhere, its value is printed. -/
theorem c6_abstract_selection (pre post : JDoc) (ek : String) (preds : JPred)
    (objs : List JObj) (m : Meta)
    (hmem : (ABSTRACT_ID, objs) ∈ preds) (hnodup : (preds.map Prod.fst).Nodup)
    (habs0 : predAbsent pre ABSTRACT_ID) (habs : predAbsent post ABSTRACT_ID)
    (hok : extract_metadata_core (pre ++ (ek, preds) :: post) = .ok m) :
    ((∀ o ∈ objs, ∀ kv ∈ o, kv.2 ≠ "en") → m.abstract = "not found") ∧
    (∀ (l1 : List JObj) (oEn : JObj) (l2 : List JObj) (x : String),
      objs = l1 ++ oEn :: l2 → (∃ kv ∈ oEn, kv.2 = "en") →
      pyDictGet oEn "value" = some x → (∀ o ∈ l2, ∀ kv ∈ o, kv.2 ≠ "en") →
      m.abstract = x) := by
  obtain ⟨a, b, hpreds⟩ := List.append_of_mem hmem
  subst hpreds
  have hnodup' := hnodup
  simp only [List.map_append, List.map_cons] at hnodup'
  have hna : ABSTRACT_ID ∉ a.map Prod.fst := by
    have hd := List.disjoint_of_nodup_append hnodup'
    intro hc
    exact hd hc (by simp)
  have hnb : ABSTRACT_ID ∉ b.map Prod.fst :=
    (List.nodup_cons.mp (List.Nodup.of_append_right hnodup')).1
  have ha : ∀ pr ∈ a, pr.1 ≠ ABSTRACT_ID := by
    intro pr hpr hc
    exact hna (List.mem_map.mpr ⟨pr, hpr, hc⟩)
  have hb : ∀ pr ∈ b, pr.1 ≠ ABSTRACT_ID := by
    intro pr hpr hc
    exact hnb (List.mem_map.mpr ⟨pr, hpr, hc⟩)
  obtain ⟨st1, sa, sb, st2, h1, h2, h3, h4, h5⟩ :=
    extract_core_split pre post ek a b ABSTRACT_ID objs m hok
  have e1 : st1.abstract = "not found" := (procDoc_absent pre initMeta st1 h1).2.2.2.2.2 habs0
  have e2 : sa.abstract = st1.abstract := (procPreds_absent a st1 sa h2).2.2.2.2.2 ha
  have e4 : st2.abstract = sb.abstract := (procPreds_absent b sb st2 h4).2.2.2.2.2 hb
  have e5 : m.abstract = st2.abstract := (procDoc_absent post st2 m h5).2.2.2.2.2 habs
  unfold procPred at h3
  rw [if_neg (by decide), if_neg (by decide), if_neg (by decide), if_neg (by decide),
    if_neg (by decide), if_pos rfl] at h3
  constructor
  · intro hnoen
    rw [foldAbstract_noen objs hnoen sa] at h3
    simp only [PyResult.ok.injEq] at h3
    subst h3
    rw [e5, e4, e2, e1]
  · intro l1 oEn l2 x hsplit htr hval hafter
    subst hsplit
    rw [foldAbstract_append] at h3
    rcases hl1 : foldAbstract sa l1 with s1 | mm | ee <;> simp only [hl1] at h3
    · simp only [foldAbstract] at h3
      rcases ho : foldAbstractObj oEn s1 oEn with s15 | mm | ee <;> simp only [ho] at h3
      · have habst : s15.abstract = x := foldAbstractObj_trig oEn oEn x hval s1 s15 ho htr
        rw [foldAbstract_noen l2 hafter s15] at h3
        simp only [PyResult.ok.injEq] at h3
        subst h3
        rw [e5, e4, habst]
      · exact PyResult.noConfusion h3
      · exact PyResult.noConfusion h3
    · exact PyResult.noConfusion h3
    · exact PyResult.noConfusion h3

/-- C6 (counterexample): given an abstract with an en-tagged object and a
later fr-tagged object whose value field is the literal string en, the
extracted abstract is the fr object's value, because the code compares
every field of every object against en, not only the locale tag. -/
theorem c6_counterexample :
    extract_metadata_core [("e", [(ABSTRACT_ID,
      [[("lang", "en"), ("value", "English text")],
       [("lang", "fr"), ("value", "en")]])])] = .ok metaAbstractEn ∧
    metaAbstractEn.abstract ≠ "English text" := by
  decide

/-- C6 witness: with an en object followed by an fr object whose fields
are not the string en, the English value is selected. -/
theorem c6_abstract_selection_witness :
    metaAbstractOk.abstract = "The English abstract" :=
  (c6_abstract_selection [] [] "e"
    [(ABSTRACT_ID, [[("lang", "en"), ("value", "The English abstract")],
      [("lang", "fr"), ("value", "Le resume")]])]
    [[("lang", "en"), ("value", "The English abstract")],
      [("lang", "fr"), ("value", "Le resume")]]
    metaAbstractOk (by decide) (by decide) (by decide) (by decide) (by decide)).2
    [] [("lang", "en"), ("value", "The English abstract")]
    [[("lang", "fr"), ("value", "Le resume")]] "The English abstract"
    rfl (by decide) (by decide) (by decide)

theorem char_toNat_lt (c : Char) : c.toNat < 1114112 := by
  have h : c.toNat < 55296 ∨ (57344 ≤ c.toNat ∧ c.toNat < 1114112) := c.valid
  omega

theorem quoteSafe_lt (b : Nat) (h : quoteSafe b = true) : b < 128 := by
  simp only [quoteSafe, decide_eq_true_eq] at h
  omega

theorem utf8EncodeChar_ascii (c : Char) (h : c.toNat < 128) :
    utf8EncodeChar c = [c.toNat] := by
  simp only [utf8EncodeChar]
  rw [if_pos h]

theorem utf8EncodeChar_lt_256 (c : Char) : ∀ b ∈ utf8EncodeChar c, b < 256 := by
  have hv := char_toNat_lt c
  intro b hb
  simp only [utf8EncodeChar] at hb
  split_ifs at hb with h1 h2 h3
  · simp only [List.mem_singleton] at hb
    omega
  · simp only [List.mem_cons, List.not_mem_nil, or_false] at hb
    rcases hb with rfl | rfl <;> omega
  · simp only [List.mem_cons, List.not_mem_nil, or_false] at hb
    rcases hb with rfl | rfl | rfl <;> omega
  · simp only [List.mem_cons, List.not_mem_nil, or_false] at hb
    rcases hb with rfl | rfl | rfl | rfl <;> omega

theorem utf8EncodeChar_unsafe_high (c : Char) (h : 128 ≤ c.toNat) :
    ∀ b ∈ utf8EncodeChar c, quoteSafe b = false := by
  have hv := char_toNat_lt c
  intro b hb
  have hge : 128 ≤ b := by
    simp only [utf8EncodeChar] at hb
    split_ifs at hb with h1 h2 h3
    · omega
    · simp only [List.mem_cons, List.not_mem_nil, or_false] at hb
      rcases hb with rfl | rfl <;> omega
    · simp only [List.mem_cons, List.not_mem_nil, or_false] at hb
      rcases hb with rfl | rfl | rfl <;> omega
    · simp only [List.mem_cons, List.not_mem_nil, or_false] at hb
      rcases hb with rfl | rfl | rfl | rfl <;> omega
  simp only [quoteSafe, decide_eq_false_iff_not]
  omega

theorem utf8Decode_encode (c : Char) (rest : List Nat) :
    utf8Decode (utf8EncodeChar c ++ rest) = c :: utf8Decode rest := by
  have hv := char_toNat_lt c
  by_cases h1 : c.toNat < 128
  · rw [utf8EncodeChar_ascii c h1, List.singleton_append]
    simp only [utf8Decode]
    rw [if_pos h1, Char.ofNat_toNat]
  · by_cases h2 : c.toNat < 2048
    · have henc : utf8EncodeChar c = [192 + c.toNat / 64, 128 + c.toNat % 64] := by
        simp only [utf8EncodeChar]
        rw [if_neg h1, if_pos h2]
      rw [henc, List.cons_append, List.singleton_append]
      simp only [utf8Decode, utf8Dec2]
      rw [if_neg (by omega), if_pos (by omega),
        show isCont (128 + c.toNat % 64) = true from by
          simp only [isCont, decide_eq_true_eq]; omega]
      simp only [if_true]
      rw [show (192 + c.toNat / 64 - 192) * 64 + (128 + c.toNat % 64 - 128) = c.toNat from by
        omega, Char.ofNat_toNat]
    · by_cases h3 : c.toNat < 65536
      · have henc : utf8EncodeChar c =
            [224 + c.toNat / 4096, 128 + (c.toNat / 64) % 64, 128 + c.toNat % 64] := by
          simp only [utf8EncodeChar]
          rw [if_neg h1, if_neg h2, if_pos h3]
        rw [henc, List.cons_append, List.cons_append, List.singleton_append]
        simp only [utf8Decode, utf8Dec3]
        rw [if_neg (by omega), if_neg (by omega), if_pos (by omega),
          show isCont (128 + (c.toNat / 64) % 64) = true from by
            simp only [isCont, decide_eq_true_eq]; omega,
          show isCont (128 + c.toNat % 64) = true from by
            simp only [isCont, decide_eq_true_eq]; omega]
        simp only [Bool.and_self, if_true]
        rw [show (224 + c.toNat / 4096 - 224) * 4096 + (128 + (c.toNat / 64) % 64 - 128) * 64 +
            (128 + c.toNat % 64 - 128) = c.toNat from by omega, Char.ofNat_toNat]
      · have henc : utf8EncodeChar c =
            [240 + c.toNat / 262144, 128 + (c.toNat / 4096) % 64, 128 + (c.toNat / 64) % 64,
             128 + c.toNat % 64] := by
          simp only [utf8EncodeChar]
          rw [if_neg h1, if_neg h2, if_neg h3]
        rw [henc, List.cons_append, List.cons_append, List.cons_append, List.singleton_append]
        simp only [utf8Decode, utf8Dec4]
        rw [if_neg (by omega), if_neg (by omega), if_neg (by omega), if_pos (by omega),
          show isCont (128 + (c.toNat / 4096) % 64) = true from by
            simp only [isCont, decide_eq_true_eq]; omega,
          show isCont (128 + (c.toNat / 64) % 64) = true from by
            simp only [isCont, decide_eq_true_eq]; omega,
          show isCont (128 + c.toNat % 64) = true from by
            simp only [isCont, decide_eq_true_eq]; omega]
        simp only [Bool.and_self, if_true]
        rw [show (240 + c.toNat / 262144 - 240) * 262144 + (128 + (c.toNat / 4096) % 64 - 128) *
            4096 + (128 + (c.toNat / 64) % 64 - 128) * 64 + (128 + c.toNat % 64 - 128) =
            c.toNat from by omega, Char.ofNat_toNat]

theorem utf8Decode_flat (us : List Char) : utf8Decode (us.flatMap utf8EncodeChar) = us := by
  induction us with
  | nil => simp only [List.flatMap_nil, utf8Decode]
  | cons c cs ih => rw [List.flatMap_cons, utf8Decode_encode, ih]

theorem hexVal_hexDigitU : ∀ x : Nat, x < 16 → hexVal (hexDigitU x) = some x := by decide

theorem unquoteScan_triple (b : Nat) (hb : b < 256) (rest : List Char) :
    unquoteScan ('%' :: hexDigitU (b / 16) :: hexDigitU (b % 16) :: rest) =
      .byte b :: unquoteScan rest := by
  simp only [unquoteScan, if_true, hexVal_hexDigitU (b / 16) (by omega),
    hexVal_hexDigitU (b % 16) (by omega)]
  rw [show 16 * (b / 16) + b % 16 = b from by omega]

theorem unquoteScan_safe (c : Char) (hc : quoteSafe c.toNat = true) (rest : List Char) :
    unquoteScan (c :: rest) = .ch c :: unquoteScan rest := by
  have hne : ¬ c = '%' := by
    rintro rfl
    exact absurd hc (by decide)
  rcases rest with _ | ⟨h1, rest1⟩
  · simp only [unquoteScan]
  · rcases rest1 with _ | ⟨h2, rest2⟩
    · simp only [unquoteScan]
      try rw [if_neg hne]
    · simp only [unquoteScan]
      try rw [if_neg hne]

theorem flatMap_congr_fn {α β : Type} (l : List α) (f g : α → List β)
    (h : ∀ a ∈ l, f a = g a) : l.flatMap f = l.flatMap g := by
  induction l with
  | nil => rfl
  | cons a l ih =>
    simp only [List.flatMap_cons]
    rw [h a (by simp), ih (fun q hq => h q (by simp [hq]))]

theorem quoteChars_safe (c : Char) (h : quoteSafe c.toNat = true) : quoteChars c = [c] := by
  have hlt : c.toNat < 128 := quoteSafe_lt _ h
  unfold quoteChars
  rw [utf8EncodeChar_ascii c hlt]
  simp only [List.flatMap_cons, List.flatMap_nil, List.append_nil, quoteByte]
  rw [if_pos h, Char.ofNat_toNat]

theorem quoteChars_encoded (c : Char) (h : quoteSafe c.toNat = false) :
    quoteChars c = (utf8EncodeChar c).flatMap
      (fun b => ['%', hexDigitU (b / 16), hexDigitU (b % 16)]) := by
  unfold quoteChars
  by_cases hlt : c.toNat < 128
  · rw [utf8EncodeChar_ascii c hlt]
    simp only [List.flatMap_cons, List.flatMap_nil, List.append_nil, quoteByte]
    rw [if_neg (by simp [h])]
  · refine flatMap_congr_fn _ _ _ fun b hb => ?_
    unfold quoteByte
    rw [if_neg (by simp [utf8EncodeChar_unsafe_high c (by omega) b hb])]

theorem unquoteScan_triples (bs : List Nat) (rest : List Char) (hb : ∀ b ∈ bs, b < 256) :
    unquoteScan (bs.flatMap (fun b => ['%', hexDigitU (b / 16), hexDigitU (b % 16)]) ++ rest) =
      bs.map UTok.byte ++ unquoteScan rest := by
  induction bs with
  | nil => simp
  | cons b bs ih =>
    simp only [List.flatMap_cons, List.append_assoc, List.cons_append, List.nil_append]
    rw [unquoteScan_triple b (hb b (by simp)), ih (fun q hq => hb q (by simp [hq]))]
    simp

theorem unquoteScan_quote (cs : List Char) :
    unquoteScan (cs.flatMap quoteChars) = cs.flatMap tokensOfChar := by
  induction cs with
  | nil => rfl
  | cons c cs ih =>
    simp only [List.flatMap_cons]
    cases hq : quoteSafe c.toNat
    · rw [quoteChars_encoded c hq,
        unquoteScan_triples (utf8EncodeChar c) _ (utf8EncodeChar_lt_256 c), ih,
        show tokensOfChar c = (utf8EncodeChar c).map UTok.byte from by
          simp [tokensOfChar, hq]]
    · rw [quoteChars_safe c hq, List.singleton_append, unquoteScan_safe c hq, ih,
        show tokensOfChar c = [UTok.ch c] from by simp [tokensOfChar, hq]]
      rfl

theorem regroupAux_bytes (bs : List Nat) : ∀ (acc : List Nat) (ts : List UTok),
    regroupAux acc (bs.map UTok.byte ++ ts) = regroupAux (bs.reverse ++ acc) ts := by
  induction bs with
  | nil => intro acc ts; simp
  | cons b bs ih =>
    intro acc ts
    simp only [List.map_cons, List.cons_append, regroupAux, List.append_eq]
    rw [ih (b :: acc) ts]
    simp

theorem regroupAux_main (cs : List Char) : ∀ us : List Char,
    regroupAux ((us.flatMap utf8EncodeChar).reverse) (cs.flatMap tokensOfChar) = us ++ cs := by
  induction cs with
  | nil =>
    intro us
    simp only [List.flatMap_nil, regroupAux, List.reverse_reverse, utf8Decode_flat,
      List.append_nil]
  | cons c cs ih =>
    intro us
    simp only [List.flatMap_cons]
    cases hq : quoteSafe c.toNat
    · rw [show tokensOfChar c = (utf8EncodeChar c).map UTok.byte from by
        simp [tokensOfChar, hq]]
      rw [regroupAux_bytes]
      rw [show (utf8EncodeChar c).reverse ++ (us.flatMap utf8EncodeChar).reverse =
          ((us ++ [c]).flatMap utf8EncodeChar).reverse from by
        simp [List.reverse_append, List.flatMap_append]]
      rw [ih (us ++ [c])]
      simp
    · rw [show tokensOfChar c = [UTok.ch c] from by simp [tokensOfChar, hq],
        List.singleton_append]
      simp only [regroupAux]
      rw [List.reverse_reverse, utf8Decode_flat]
      have h0 := ih []
      simp only [List.flatMap_nil, List.reverse_nil, List.nil_append] at h0
      rw [h0]

theorem pyUnquote_pyQuote (t : String) : pyUnquote (pyQuote t) = t := by
  rcases t with ⟨l⟩
  show pyUnquote (pyQuote (String.mk l)) = String.mk l
  unfold pyQuote pyUnquote
  rw [show ((String.mk l).data.flatMap utf8EncodeChar).flatMap quoteByte =
      l.flatMap quoteChars from by
    rw [List.flatMap_assoc]
    rfl]
  rw [show ((l.flatMap quoteChars).asString).data = l.flatMap quoteChars from rfl]
  rw [unquoteScan_quote]
  have h0 := regroupAux_main l []
  simp only [List.flatMap_nil, List.reverse_nil, List.nil_append] at h0
  rw [h0]
  rfl

/-- C9: for every non-empty, non-whitespace input, clean returns the
percent-encoding of the trimmed case-folded string, and URL-decoding that
output gives back exactly the trimmed case-folded string. -/
theorem c9_roundtrip (s : String) (h1 : s.data ≠ []) (h2 : s.data.all isPySpace = false) :
    clean s = .ok (pyQuote (pyCasefold (pyStrip s))) ∧
    pyUnquote (pyQuote (pyCasefold (pyStrip s))) = pyCasefold (pyStrip s) := by
  constructor
  · unfold clean
    rw [if_pos]
    constructor
    · exact List.length_pos.mpr h1
    · unfold pyStrIsSpace
      rw [h2]
      simp
  · exact pyUnquote_pyQuote _

/-- C9 witness: a padded mixed-case title. -/
theorem c9_roundtrip_witness :
    clean "  The War of the Worlds " =
      .ok (pyQuote (pyCasefold (pyStrip "  The War of the Worlds "))) ∧
    pyUnquote (pyQuote (pyCasefold (pyStrip "  The War of the Worlds "))) =
      pyCasefold (pyStrip "  The War of the Worlds ") :=
  c9_roundtrip "  The War of the Worlds " (by decide) (by decide)
